import Mathlib

/-!
Verification of the data-cleaning / exploratory-analysis pipeline of the
Flask data-processing application (sources: `processing/cleaner.py`,
`services/data_service.py`).

The pandas `DataFrame` is shallowly embedded as a row-major table of cells.
A cell is a rational number (modelling int64/float64 entries), a string
(modelling `object` entries), or the missing marker (modelling `NaN`/`None`).
Column dtypes are tracked separately, mirroring pandas dtypes: `numeric`
stands for `int64`/`float64`, `object` for the pandas object dtype, `other`
for any remaining dtype (the cleaner touches neither branch for those).
-/

namespace Flaskdp

/-- A single table cell: numeric value, string value, or missing (`NaN`). -/
inductive Cell where
  | num (q : ℚ)
  | str (s : String)
  | missing
deriving DecidableEq, Repr

/-- Pandas column dtype class as distinguished by `cleaner.py`
(`int64`/`float64` → `numeric`, `object` → `object`, anything else → `other`). -/
inductive Dtype where
  | numeric
  | object
  | other
deriving DecidableEq, Repr

/-- One row of a dataframe: the list of its cells, column order fixed. -/
abbrev Row := List Cell

/-- Row-major dataframe: column names, column dtypes, and the data rows.
Mirrors a pandas `DataFrame` (`df.columns`, `df.dtypes`, `df.values`). -/
structure Df where
  names : List String
  dtypes : List Dtype
  rows : List Row
deriving DecidableEq, Repr

/-- Number of columns (`len(df.columns)`). -/
def ncols (df : Df) : Nat := df.names.length

/-- Well-formedness of the embedding of a pandas frame: frames are
rectangular (every row has one cell per column) and there is one dtype per
column.  pandas maintains this by construction. -/
def Wf (df : Df) : Prop :=
  (∀ r ∈ df.rows, r.length = ncols df) ∧ df.dtypes.length = ncols df

instance (df : Df) : Decidable (Wf df) := by
  unfold Wf
  infer_instance

/-- Cell of a row at column index `j`; out-of-range reads the missing
marker (unreachable on well-formed frames). -/
def cellAt : Nat → Row → Cell
  | _, [] => Cell.missing
  | 0, c :: _ => c
  | j + 1, _ :: r => cellAt j r

/-- Replace the cell at column index `j` by `v` when it is missing
(the effect of `Series.fillna` on one row). -/
def fillAt (v : Cell) : Nat → Row → Row
  | _, [] => []
  | 0, c :: r => (if c = Cell.missing then v else c) :: r
  | j + 1, c :: r => c :: fillAt v j r

/-- The values of column `j`, top to bottom (`df[col]`). -/
def colVals (rows : List Row) (j : Nat) : List Cell :=
  rows.map (cellAt j)

/-- Number of missing entries in a list of cells (`Series.isnull().sum()`). -/
def missingCount (cells : List Cell) : Nat :=
  cells.countP (fun c => c = Cell.missing)

/-- The non-missing entries of a list of cells (pandas skips `NaN` in
`median`, `mode`, `nunique`, `value_counts`). -/
def nonMissing (cells : List Cell) : List Cell :=
  cells.filter (fun c => ¬ c = Cell.missing)

/-- The numeric entries of a list of cells. -/
def numVals (cells : List Cell) : List ℚ :=
  cells.filterMap (fun c => match c with | Cell.num q => some q | _ => none)

/-- Does the row contain a missing cell (`row.isnull().any()`)? -/
def rowHasMissing (r : Row) : Bool :=
  r.any (fun c => c = Cell.missing)

/-- Fuelled form of first-occurrence duplicate removal (the fuel makes
the recursion structural, so the kernel can evaluate it; `dedupF` below
always supplies enough fuel). -/
def dedupFuel {α : Type} [DecidableEq α] : Nat → List α → List α
  | _, [] => []
  | 0, _ :: _ => []
  | fuel + 1, r :: rs => r :: dedupFuel fuel (rs.filter (fun x => ¬ x = r))

/-- Duplicate removal keeping the first occurrence, order preserved
(`DataFrame.drop_duplicates()` on rows, and the distinct values underlying
`Series.mode()`/`nunique()` on cells; pandas treats `NaN` cells as equal
here, as does `Cell.missing`). -/
def dedupF {α : Type} [DecidableEq α] (l : List α) : List α :=
  dedupFuel l.length l

theorem dedupFuel_adequate {α : Type} [DecidableEq α] :
    ∀ (fuel : Nat) (l : List α), l.length ≤ fuel →
      dedupFuel fuel l = dedupF l
  | 0, [], _ => rfl
  | fuel + 1, [], _ => rfl
  | 0, r :: rs, h => absurd h (by simp)
  | fuel + 1, r :: rs, h => by
      have hle : (rs.filter (fun x => ¬ x = r)).length ≤ rs.length :=
        List.length_filter_le _ _
      have hrs : rs.length ≤ fuel := Nat.le_of_succ_le_succ (by simpa using h)
      have h1 := dedupFuel_adequate fuel (rs.filter (fun x => ¬ x = r)) (hle.trans hrs)
      have h2 := dedupFuel_adequate rs.length (rs.filter (fun x => ¬ x = r)) hle
      show r :: dedupFuel fuel (rs.filter (fun x => ¬ x = r)) =
           r :: dedupFuel rs.length (rs.filter (fun x => ¬ x = r))
      rw [h1, h2]
termination_by fuel _ _ => fuel
decreasing_by
  · exact Nat.lt_succ_self fuel
  · exact Nat.lt_succ_of_le hrs

/-- The defining equation of `dedupF` on a cons cell. -/
theorem dedupF_cons {α : Type} [DecidableEq α] (r : α) (rs : List α) :
    dedupF (r :: rs) = r :: dedupF (rs.filter (fun x => ¬ x = r)) := by
  show r :: dedupFuel rs.length (rs.filter (fun x => ¬ x = r)) = _
  rw [dedupFuel_adequate rs.length _ (List.length_filter_le _ _)]

@[simp] theorem dedupF_nil {α : Type} [DecidableEq α] : dedupF ([] : List α) = [] := rfl

/-- Helper for `dupCount`: counts rows already seen while scanning. -/
def dupCountAux : List Row → List Row → Nat
  | _, [] => 0
  | seen, r :: rs => (if r ∈ seen then 1 else 0) + dupCountAux (r :: seen) rs

/-- Number of rows equal to some earlier row (`df.duplicated().sum()`). -/
def dupCount (rows : List Row) : Nat := dupCountAux [] rows

/-- Pandas `Series.median()` over rational values: sort ascending; odd
length takes the middle element, even length averages the two middle
elements; empty input has no median (`NaN`, so the subsequent `fillna`
is a no-op). -/
def median (l : List ℚ) : Option ℚ :=
  let s := l.insertionSort (· ≤ ·)
  if s.length = 0 then none
  else if s.length % 2 = 1 then some (s.getD (s.length / 2) 0)
  else some ((s.getD (s.length / 2 - 1) 0 + s.getD (s.length / 2) 0) / 2)

/-- Lexicographic comparison of character lists by code point — the
string order Python uses when sorting (`'a' <= 'b'` by Unicode code
point). -/
def strLeB : List Char → List Char → Bool
  | [], _ => true
  | _ :: _, [] => false
  | a :: as, b :: bs =>
      if a.toNat < b.toNat then true
      else if b.toNat < a.toNat then false
      else strLeB as bs

/-- Python's string ordering. -/
def strLe (a b : String) : Bool := strLeB a.data b.data

/-- Total comparison on cells used to model the ascending sort that
pandas applies to the result of `Series.mode()` (numpy `sort`); on
homogeneous object columns this is the string order, on numeric data the
rational order.  Mixed/missing cases are ordered arbitrarily but totally. -/
def cellLe : Cell → Cell → Bool
  | Cell.missing, _ => true
  | Cell.num _, Cell.missing => false
  | Cell.num a, Cell.num b => a ≤ b
  | Cell.num _, Cell.str _ => true
  | Cell.str _, Cell.missing => false
  | Cell.str _, Cell.num _ => false
  | Cell.str a, Cell.str b => strLe a b

/-- `cellLe` as a relation, for the sorting lemmas. -/
def CellLe (a b : Cell) : Prop := cellLe a b = true

instance : DecidableRel CellLe := fun a b => by
  unfold CellLe; infer_instance

/-- Multiplicity of the value `v` in a list of cells. -/
def countVal (l : List Cell) (v : Cell) : Nat :=
  l.countP (fun c => c = v)

/-- Largest element of a list of naturals (0 when empty). -/
def natMax (l : List Nat) : Nat := l.foldr Nat.max 0

/-- Pandas `Series.mode()`: the distinct non-missing values of maximal
multiplicity, returned in ascending sorted order (pandas sorts the mode
values with `numpy.sort` before returning them). -/
def modeList (cells : List Cell) : List Cell :=
  let nm := nonMissing cells
  let distinct := dedupF nm
  let mx := natMax (distinct.map (countVal nm))
  (distinct.filter (fun v => countVal nm v = mx)).insertionSort CellLe

/-- The value `clean_data` fills into a column's missing cells, if any:
numeric columns use the median of the non-missing values (no fill when it
is undefined, since `fillna(NaN)` does nothing), object columns use
`mode()[0]` or the literal `'Unknown'` when the mode is empty, other
dtypes are not filled at all. -/
def fillValue (dtype : Dtype) (cells : List Cell) : Option Cell :=
  match dtype with
  | Dtype.numeric => (median (numVals cells)).map Cell.num
  | Dtype.object =>
      some (match modeList cells with
            | [] => Cell.str "Unknown"
            | v :: _ => v)
  | Dtype.other => none

/-- One iteration of the per-column loop in `clean_data`: if column `j`
has missing entries, fill them according to the column's dtype. -/
def fillColumn (dtypes : List Dtype) (rows : List Row) (j : Nat) : List Row :=
  if 0 < missingCount (colVals rows j) then
    match fillValue (dtypes.getD j Dtype.other) (colVals rows j) with
    | some v => rows.map (fillAt v j)
    | none => rows
  else rows

/-- The per-column loop of `clean_data` run over columns `0 .. k-1`,
in source order (`for col in df_cleaned.columns`). -/
def fillLoop (dtypes : List Dtype) (rows : List Row) : Nat → List Row
  | 0 => rows
  | k + 1 => fillColumn dtypes (fillLoop dtypes rows k) k

/-- `original` part of the cleaning report. -/
structure OriginalStats where
  rows : Nat
  columns : Nat
  missing_values : List Nat
  duplicate_rows : Nat
deriving DecidableEq, Repr

/-- `cleaned` part of the cleaning report. -/
structure CleanedStats where
  rows : Nat
  columns : Nat
  rows_removed : Nat
  missing_values_filled : Nat
  duplicate_rows_removed : Nat
deriving DecidableEq, Repr

/-- The cleaning report returned by `clean_data`. -/
structure CleaningReport where
  original : OriginalStats
  cleaned : CleanedStats
deriving DecidableEq, Repr

/-- Pre-cleaning per-column missing counts
(`df.isnull().sum().to_dict()`, one entry per column, in column order). -/
def origMissingCounts (df : Df) : List Nat :=
  (List.range (ncols df)).map (fun j => missingCount (colVals df.rows j))

/-- Stage 1 of `clean_data`: `df.drop_duplicates()`. -/
def cleanRows1 (df : Df) : List Row := dedupF df.rows

/-- Stage 2 of `clean_data`: the per-column imputation loop. -/
def cleanRows2 (df : Df) : List Row :=
  fillLoop df.dtypes (cleanRows1 df) (ncols df)

/-- Stage 3 of `clean_data`: `df_cleaned.dropna()`. -/
def cleanRows3 (df : Df) : List Row :=
  (cleanRows2 df).filter (fun r => ! rowHasMissing r)

/-- Stage 4 of `clean_data`: the second `drop_duplicates()`. -/
def cleanRows4 (df : Df) : List Row := dedupF (cleanRows3 df)

/-- `clean_data` from `processing/cleaner.py`: duplicate removal,
per-column imputation, `dropna`, second duplicate removal, and the
before/after report assembled exactly as in the source. -/
def clean_data (df : Df) : Df × CleaningReport :=
  let origMissing := origMissingCounts df
  let origDup := dupCount df.rows
  let outRows := cleanRows4 df
  (⟨df.names, df.dtypes, outRows⟩,
   { original :=
       { rows := df.rows.length
         columns := ncols df
         missing_values := origMissing
         duplicate_rows := origDup }
     cleaned :=
       { rows := outRows.length
         columns := ncols df
         rows_removed := df.rows.length - outRows.length
         missing_values_filled := origMissing.sum
         duplicate_rows_removed := origDup } })

/-! ### Table generation (`generate_all_tables` in `services/data_service.py`) -/

/-- Names of the numeric columns, in column order
(`df.select_dtypes(include=[np.number]).columns.tolist()`). -/
def numericCols (df : Df) : List String :=
  ((df.names.zip df.dtypes).filter (fun p => p.2 = Dtype.numeric)).map (fun p => p.1)

/-- Names of the categorical (object-dtype) columns, in column order
(`df.select_dtypes(include=['object']).columns.tolist()`). -/
def categoricalCols (df : Df) : List String :=
  ((df.names.zip df.dtypes).filter (fun p => p.2 = Dtype.object)).map (fun p => p.1)

/-- The keys inserted into the `tables` dictionary by `generate_all_tables`,
in source order; each key is guarded exactly as in the source
(`descriptive_statistics` and `numeric_comparison` need at least one
numeric column, `categorical_comparison` at least one object column,
`correlation_matrix` at least two numeric columns, the rest are
unconditional).  The payloads carry no information relevant to the claims
under verification, so only the key set is modelled here; the
`categorical_comparison` payload, which a claim does inspect, is modelled
separately below. -/
def generate_all_tables_keys (df : Df) : List String :=
  (if numericCols df ≠ [] then ["descriptive_statistics"] else []) ++
  ["data_types"] ++
  (if numericCols df ≠ [] then ["numeric_comparison"] else []) ++
  (if categoricalCols df ≠ [] then ["categorical_comparison"] else []) ++
  ["missing_values"] ++
  (if 1 < (numericCols df).length then ["correlation_matrix"] else []) ++
  ["duplicate_analysis", "summary"]

/-- Index of the column named `c` (`df[c]` resolution; first match,
as in pandas when names are unique). -/
def colIdx (df : Df) (c : String) : Nat := df.names.indexOf c

/-- The values of the column named `c`. -/
def colValsByName (df : Df) (c : String) : List Cell :=
  colVals df.rows (colIdx df c)

/-- Pandas `Series.nunique()`: number of distinct non-missing values. -/
def nunique (cells : List Cell) : Nat :=
  (dedupF (nonMissing cells)).length

/-- The per-column entry of the `categorical_comparison` table.  The
`value_distribution` payload and the `str()` rendering of the most common
value are omitted: no claim inspects them. -/
structure CatSummary where
  unique_count : Nat
  most_common : Option Cell
deriving DecidableEq, Repr

/-- The `categorical_comparison` table of `generate_all_tables`: one entry
per object-dtype column, keyed by column name, with
`unique_count = df[col].nunique()` and
`most_common = df[col].mode()[0]` when the mode is non-empty. -/
def categorical_comparison (df : Df) : List (String × CatSummary) :=
  (categoricalCols df).map (fun c =>
    (c, { unique_count := nunique (colValsByName df c)
          most_common := (modeList (colValsByName df c)).head? }))

/-! ### Chart generation (`generate_graph` / `generate_all_graphs`)

`generate_graph` builds a matplotlib figure (drawing nothing when the
branch guard fails), saves it as a PNG into a buffer and returns the
base64 encoding of the buffer.  The figure is modelled as the list of
drawing commands issued; saving is modelled as the PNG signature bytes
(every PNG stream starts with them) followed by an opaque serialisation
of the drawing commands.  The `except` path returning `''` is not
modelled: none of the modelled operations raises. -/

/-- A matplotlib drawing command issued by `generate_graph`. -/
inductive DrawCmd where
  | hist (col : String)
  | boxplot (cols : List String)
  | heatmap (cols : List String)
  | missingBar
  | scatterPlot (x y : String)
  | pie (col : String)
  | line (col : String)
  | bar (cols : List String)
  | kde (col : String)
  | area (col : String)
  | violin (cols : List String)
deriving DecidableEq, Repr

/-- Dtype of the column named `c` (used for `df[column].dtype` checks). -/
def dtypeOf (df : Df) (c : String) : Dtype :=
  df.dtypes.getD (colIdx df c) Dtype.other

/-- Total number of missing cells (`df.isnull().sum().sum()`). -/
def totalMissing (df : Df) : Nat :=
  ((List.range (ncols df)).map (fun j => missingCount (colVals df.rows j))).sum

/-- The drawing commands issued by one `generate_graph` call, following
the branch structure of the source: each `elif` guard is translated
verbatim, and a failed guard draws nothing (the figure stays blank). -/
def drawCommands (df : Df) (column : Option String) (graph_type : String) :
    List DrawCmd :=
  if graph_type = "histogram" then
    match column with
    | some c => if dtypeOf df c = Dtype.numeric then [DrawCmd.hist c] else []
    | none => []
  else if graph_type = "distribution" then
    if numericCols df ≠ [] then [DrawCmd.boxplot (numericCols df)] else []
  else if graph_type = "correlation" then
    if 1 < (numericCols df).length then [DrawCmd.heatmap (numericCols df)] else []
  else if graph_type = "missing" then
    if 0 < totalMissing df then [DrawCmd.missingBar] else []
  else if graph_type = "scatter" then
    match column with
    | some c =>
        if 2 ≤ (numericCols df).length ∧ c ∈ numericCols df then
          match (numericCols df).filter (fun x => ¬ x = c) with
          | o :: _ => [DrawCmd.scatterPlot c o]
          | [] => []
        else []
    | none => []
  else if graph_type = "pie" then
    match column with
    | some c =>
        if nunique (colValsByName df c) ≤ 10 then [DrawCmd.pie c] else []
    | none => []
  else if graph_type = "line" then
    match column with
    | some c => if dtypeOf df c = Dtype.numeric then [DrawCmd.line c] else []
    | none => []
  else if graph_type = "bar" then
    if numericCols df ≠ [] then [DrawCmd.bar ((numericCols df).take 5)] else []
  else if graph_type = "kde" then
    match column with
    | some c => if dtypeOf df c = Dtype.numeric then [DrawCmd.kde c] else []
    | none => []
  else if graph_type = "area" then
    match column with
    | some c => if dtypeOf df c = Dtype.numeric then [DrawCmd.area c] else []
    | none => []
  else if graph_type = "violin" then
    if numericCols df ≠ [] then [DrawCmd.violin ((numericCols df).take 4)] else []
  else []

/-- The 8 signature bytes that begin every PNG stream; `plt.savefig`
with `format='png'` always writes them first, so the saved buffer is
never empty — even for a blank figure. -/
def pngSignature : List Nat := [137, 80, 78, 71, 13, 10, 26, 10]

/-- Opaque serialisation of the drawn content (stands in for the pixel
data; the claims only distinguish blank from non-blank figures). -/
def serializeCmds (cmds : List DrawCmd) : List Nat :=
  cmds.map (fun c =>
    match c with
    | DrawCmd.hist _ => 1
    | DrawCmd.boxplot _ => 2
    | DrawCmd.heatmap _ => 3
    | DrawCmd.missingBar => 4
    | DrawCmd.scatterPlot _ _ => 5
    | DrawCmd.pie _ => 6
    | DrawCmd.line _ => 7
    | DrawCmd.bar _ => 8
    | DrawCmd.kde _ => 9
    | DrawCmd.area _ => 10
    | DrawCmd.violin _ => 11)

/-- The PNG byte stream `plt.savefig` writes for a figure holding the
given drawing commands. -/
def pngBytes (cmds : List DrawCmd) : List Nat :=
  pngSignature ++ serializeCmds cmds

/-- The base64 alphabet. -/
def b64Alphabet : List Char :=
  "ABCDEFGHIJKLMNOPQRSTUVWXYZabcdefghijklmnopqrstuvwxyz0123456789+/".toList

/-- Character for a 6-bit group. -/
def b64Char (n : Nat) : Char := b64Alphabet.getD n 'A'

/-- Standard base64 encoding of a byte list (`base64.b64encode`). -/
def b64encodeL : List Nat → List Char
  | [] => []
  | [a] => [b64Char (a / 4), b64Char (a % 4 * 16), '=', '=']
  | [a, b] => [b64Char (a / 4), b64Char (a % 4 * 16 + b / 16), b64Char (b % 16 * 4), '=']
  | a :: b :: c :: rest =>
      b64Char (a / 4) :: b64Char (a % 4 * 16 + b / 16) ::
      b64Char (b % 16 * 4 + c / 64) :: b64Char (c % 64) :: b64encodeL rest

/-- `base64.b64encode(...).decode('utf-8')` as a string. -/
def b64encode (bytes : List Nat) : String := String.mk (b64encodeL bytes)

/-- `generate_graph` from `services/data_service.py`: build the figure
for the requested graph type and return the base64-encoded PNG buffer. -/
def generate_graph (df : Df) (column : Option String) (graph_type : String) :
    String :=
  b64encode (pngBytes (drawCommands df column graph_type))

/-- `generate_all_graphs` from `services/data_service.py`: the chart
dictionary, with the numeric-column charts present when at least one
numeric column exists, the pie chart when at least one object column
exists, and the missing-values chart always. -/
def generate_all_graphs (df : Df) : List (String × String) :=
  (if numericCols df ≠ [] then
    [("histogram", generate_graph df ((numericCols df).head?) "histogram"),
     ("distribution", generate_graph df none "distribution"),
     ("correlation", generate_graph df none "correlation"),
     ("scatter", generate_graph df ((numericCols df).head?) "scatter"),
     ("line", generate_graph df ((numericCols df).head?) "line"),
     ("kde", generate_graph df ((numericCols df).head?) "kde"),
     ("area", generate_graph df ((numericCols df).head?) "area"),
     ("bar", generate_graph df none "bar"),
     ("violin", generate_graph df none "violin")]
   else []) ++
  (if categoricalCols df ≠ [] then
    [("pie", generate_graph df ((categoricalCols df).head?) "pie")]
   else []) ++
  [("missing", generate_graph df none "missing")]

/-! ### Format detection (`detect_file_format` in `services/data_service.py`)

`os.path.splitext` is modelled faithfully (posixpath): the extension is
the suffix starting at the last `.` that lies after the last `/`,
provided at least one character strictly between the separator and that
dot is not itself a dot (so names made of leading dots have no
extension).  The detected extension is then lower-cased, stripped of
whitespace and looked up in the format dictionary, with `'unknown'` as
the default. -/

/-- Is there a non-dot character before reaching a path separator, when
scanning a reversed character list? (the `while` loop of
`posixpath.splitext`). -/
def hasNonDotBeforeSep : List Char → Bool
  | [] => false
  | c :: rest =>
      if c = '/' then false
      else if c = '.' then hasNonDotBeforeSep rest
      else true

/-- Scan the reversed filename, accumulating the characters after the
last dot; returns the extension (including the dot) or `[]`. -/
def extRevScan (acc : List Char) : List Char → List Char
  | [] => []
  | c :: rest =>
      if c = '/' then []
      else if c = '.' then
        (if hasNonDotBeforeSep rest then '.' :: acc else [])
      else extRevScan (c :: acc) rest

/-- The extension part of `os.path.splitext`, on character lists. -/
def splitextExt (p : List Char) : List Char :=
  extRevScan [] p.reverse

/-- ASCII lower-casing of one character (`str.lower` restricted to the
ASCII range, which covers every extension the dictionary knows). -/
def asciiLower (c : Char) : Char :=
  match c with
  | 'A' => 'a' | 'B' => 'b' | 'C' => 'c' | 'D' => 'd' | 'E' => 'e'
  | 'F' => 'f' | 'G' => 'g' | 'H' => 'h' | 'I' => 'i' | 'J' => 'j'
  | 'K' => 'k' | 'L' => 'l' | 'M' => 'm' | 'N' => 'n' | 'O' => 'o'
  | 'P' => 'p' | 'Q' => 'q' | 'R' => 'r' | 'S' => 's' | 'T' => 't'
  | 'U' => 'u' | 'V' => 'v' | 'W' => 'w' | 'X' => 'x' | 'Y' => 'y'
  | 'Z' => 'z'
  | other => other

/-- `str.lower` over a character list. -/
def lowerChars (l : List Char) : List Char := l.map asciiLower

/-- `str.strip()` over a character list: drop whitespace on both ends. -/
def stripChars (l : List Char) : List Char :=
  ((l.dropWhile Char.isWhitespace).reverse.dropWhile Char.isWhitespace).reverse

/-- The `formats` dictionary lookup `formats.get(ext, 'unknown')`. -/
def formats_get (ext : String) : String :=
  if ext = ".csv" then "csv"
  else if ext = ".json" then "json"
  else if ext = ".xlsx" then "xlsx"
  else if ext = ".xls" then "xls"
  else if ext = ".tsv" then "tsv"
  else if ext = ".txt" then "txt"
  else if ext = ".parquet" then "parquet"
  else if ext = ".pq" then "parquet"
  else if ext = ".hdf5" then "hdf5"
  else if ext = ".h5" then "hdf5"
  else if ext = ".feather" then "feather"
  else "unknown"

/-- The lower-cased, stripped extension of a filename — the key the
format dictionary is consulted with. -/
def extKey (filename : String) : String :=
  String.mk (stripChars (lowerChars (splitextExt filename.toList)))

/-- `detect_file_format` from `services/data_service.py`. -/
def detect_file_format (filename : String) : String :=
  formats_get (extKey filename)

/-- `str.lower` on a whole filename string. -/
def lowerStr (s : String) : String := String.mk (lowerChars s.toList)

/-! ### Resilient reading (`read_data_file` / `try_read_csv_with_encodings`)

The text path of `read_data_file` decodes the raw bytes with a fixed
list of candidate encodings; `pd.read_csv` raises `UnicodeDecodeError`
when the bytes are invalid for the attempted encoding, and exactly those
errors are caught, so the first encoding that decodes the bytes wins.
If every candidate fails, the source falls back to a lossy utf-8 read.
Decoders are modelled from the corresponding codecs: utf-8 rejects
malformed sequences (overlong forms, surrogates, out-of-range and stray
continuation bytes); latin-1 and iso-8859-1 map every byte to the
code point of the same value and never fail; windows-1252/cp1252 remap
the 0x80–0x9F block and reject the five unassigned bytes
0x81, 0x8D, 0x8F, 0x90, 0x9D.  The CSV parsing itself is modelled as a
total split into lines and comma-separated fields of string cells;
pandas' dtype inference and its parse errors (which the encoding chain
does not catch) are outside the scope of the claims. -/

/-- Is the byte a UTF-8 continuation byte? -/
def isCont (b : Nat) : Bool := 128 ≤ b && b < 192

/-- Strict utf-8 decoding (`bytes.decode('utf-8')`): `none` on any
malformed sequence. -/
def utf8Decode : List Nat → Option (List Char)
  | [] => some []
  | b :: rest =>
      if b < 128 then
        (utf8Decode rest).map (fun cs => Char.ofNat b :: cs)
      else if b < 194 then none
      else if b < 224 then
        match rest with
        | b2 :: rest2 =>
            if isCont b2 then
              (utf8Decode rest2).map
                (fun cs => Char.ofNat ((b - 192) * 64 + (b2 - 128)) :: cs)
            else none
        | _ => none
      else if b < 240 then
        match rest with
        | b2 :: b3 :: rest3 =>
            if isCont b2 && isCont b3 &&
               (b ≠ 224 || 160 ≤ b2) && (b ≠ 237 || b2 < 160) then
              (utf8Decode rest3).map
                (fun cs =>
                  Char.ofNat ((b - 224) * 4096 + (b2 - 128) * 64 + (b3 - 128)) :: cs)
            else none
        | _ => none
      else if b < 245 then
        match rest with
        | b2 :: b3 :: b4 :: rest4 =>
            if isCont b2 && isCont b3 && isCont b4 &&
               (b ≠ 240 || 144 ≤ b2) && (b ≠ 244 || b2 < 144) then
              (utf8Decode rest4).map
                (fun cs =>
                  Char.ofNat ((b - 240) * 262144 + (b2 - 128) * 4096 +
                              (b3 - 128) * 64 + (b4 - 128)) :: cs)
            else none
        | _ => none
      else none

/-- Total latin-1 / iso-8859-1 decoding: each byte is the code point of
the same value. -/
def latin1Decode (bytes : List Nat) : List Char :=
  bytes.map Char.ofNat

/-- The windows-1252 mapping of one byte: the 0x80–0x9F block is remapped
per the cp1252 table, five bytes there are unassigned, every other byte
decodes as in latin-1. -/
def win1252Byte (b : Nat) : Option Nat :=
  if b = 128 then some 8364
  else if b = 130 then some 8218
  else if b = 131 then some 402
  else if b = 132 then some 8222
  else if b = 133 then some 8230
  else if b = 134 then some 8224
  else if b = 135 then some 8225
  else if b = 136 then some 710
  else if b = 137 then some 8240
  else if b = 138 then some 352
  else if b = 139 then some 8249
  else if b = 140 then some 338
  else if b = 142 then some 381
  else if b = 145 then some 8216
  else if b = 146 then some 8217
  else if b = 147 then some 8220
  else if b = 148 then some 8221
  else if b = 149 then some 8226
  else if b = 150 then some 8211
  else if b = 151 then some 8212
  else if b = 152 then some 732
  else if b = 153 then some 8482
  else if b = 154 then some 353
  else if b = 155 then some 8250
  else if b = 156 then some 339
  else if b = 158 then some 382
  else if b = 159 then some 376
  else if b = 129 ∨ b = 141 ∨ b = 143 ∨ b = 144 ∨ b = 157 then none
  else some b

/-- windows-1252 / cp1252 decoding: fails on the five unassigned bytes. -/
def win1252Decode (bytes : List Nat) : Option (List Char) :=
  (bytes.mapM win1252Byte).map (fun l => l.map Char.ofNat)

/-- Lossy utf-8 decoding with replacement (`errors='replace'`): total;
malformed bytes become U+FFFD.  (The source's fallback line intends
this behaviour; it is unreachable, since latin-1 decoding never fails.) -/
def lossyUtf8Decode : List Nat → List Char
  | [] => []
  | b :: rest =>
      if b < 128 then Char.ofNat b :: lossyUtf8Decode rest
      else Char.ofNat 65533 :: lossyUtf8Decode rest

/-- The candidate encodings of `try_read_csv_with_encodings`, in source
order: `['utf-8', 'latin-1', 'windows-1252', 'iso-8859-1', 'cp1252']`. -/
inductive Enc where
  | utf8
  | latin1
  | win1252
  | iso88591
  | cp1252
deriving DecidableEq, Repr

/-- The ordered candidate list. -/
def encodings : List Enc := [Enc.utf8, Enc.latin1, Enc.win1252, Enc.iso88591, Enc.cp1252]

/-- Decode bytes with one candidate encoding (iso-8859-1 is latin-1;
cp1252 is windows-1252, as in the Python codec registry). -/
def decodeWith : Enc → List Nat → Option (List Char)
  | Enc.utf8, bytes => utf8Decode bytes
  | Enc.latin1, bytes => some (latin1Decode bytes)
  | Enc.win1252, bytes => win1252Decode bytes
  | Enc.iso88591, bytes => some (latin1Decode bytes)
  | Enc.cp1252, bytes => win1252Decode bytes

/-- Split a character list at a separator character. -/
def splitChar (sep : Char) : List Char → List (List Char)
  | [] => [[]]
  | c :: r =>
      let rest := splitChar sep r
      if c = sep then [] :: rest
      else (c :: rest.headD []) :: rest.tail

/-- Model of the `pd.read_csv` parse of decoded text: first non-empty
line is the header, remaining non-empty lines are rows of string cells
split at commas.  Total — pandas' parse failures and dtype inference are
not modelled, the claims under verification concern only the encoding
chain in front of the parse. -/
def csvParse (s : List Char) : Df :=
  let lines := (splitChar '\n' s).filter (fun l => ¬ l = [])
  match lines with
  | [] => ⟨[], [], []⟩
  | header :: body =>
      let names := (splitChar ',' header).map String.mk
      ⟨names, names.map (fun _ => Dtype.object),
       body.map (fun l => (splitChar ',' l).map (fun f => Cell.str (String.mk f)))⟩

/-- The encoding loop of `try_read_csv_with_encodings`: try each
candidate in order, returning the parse of the first successful decode;
when every candidate fails, fall back to the lossy utf-8 read. -/
def tryEncodings (bytes : List Nat) : List Enc → Df
  | [] => csvParse (lossyUtf8Decode bytes)
  | e :: es =>
      match decodeWith e bytes with
      | some s => csvParse s
      | none => tryEncodings bytes es

/-- `try_read_csv_with_encodings` from `services/data_service.py`
(shared by the csv, tsv and txt paths of `read_data_file`; the
separator argument does not interact with the encoding chain). -/
def try_read_csv_with_encodings (bytes : List Nat) : Df :=
  tryEncodings bytes encodings

/-! ### Basic lemmas about duplicate removal -/

theorem mem_dedupF {α : Type} [DecidableEq α] {a : α} :
    ∀ {l : List α}, a ∈ dedupF l ↔ a ∈ l
  | [] => by simp
  | r :: rs => by
      rw [dedupF_cons]
      by_cases h : a = r
      · subst h; simp
      · simp only [List.mem_cons, h, false_or]
        rw [@mem_dedupF _ _ _ (rs.filter (fun x => ¬ x = r))]
        simp [List.mem_filter, h]
termination_by l => l.length
decreasing_by
  simp only [List.length_cons]
  exact Nat.lt_succ_of_le (List.length_filter_le _ _)

theorem sublist_dedupF {α : Type} [DecidableEq α] :
    ∀ (l : List α), List.Sublist (dedupF l) l
  | [] => by simp
  | r :: rs => by
      rw [dedupF_cons]
      exact List.Sublist.cons₂ r
        ((sublist_dedupF (rs.filter (fun x => ¬ x = r))).trans (List.filter_sublist rs))
termination_by l => l.length
decreasing_by
  simp only [List.length_cons]
  exact Nat.lt_succ_of_le (List.length_filter_le _ _)

theorem nodup_dedupF {α : Type} [DecidableEq α] :
    ∀ (l : List α), (dedupF l).Nodup
  | [] => by simp
  | r :: rs => by
      rw [dedupF_cons]
      refine List.nodup_cons.mpr ⟨?_, nodup_dedupF _⟩
      intro hmem
      have := mem_dedupF.mp hmem
      simp [List.mem_filter] at this
termination_by l => l.length
decreasing_by
  simp only [List.length_cons]
  exact Nat.lt_succ_of_le (List.length_filter_le _ _)

theorem dedupF_eq_self {α : Type} [DecidableEq α] :
    ∀ {l : List α}, l.Nodup → dedupF l = l
  | [], _ => by simp
  | r :: rs, h => by
      rw [dedupF_cons]
      rcases List.nodup_cons.mp h with ⟨hr, hrs⟩
      have hf : rs.filter (fun x => ¬ x = r) = rs := by
        apply List.filter_eq_self.mpr
        intro a ha
        simp only [decide_eq_true_eq]
        intro hEq; exact hr (hEq ▸ ha)
      rw [hf, dedupF_eq_self hrs]
termination_by l => l.length
decreasing_by
  simp only [List.length_cons]
  exact Nat.lt_succ_self _

theorem length_dedupF_le {α : Type} [DecidableEq α] (l : List α) :
    (dedupF l).length ≤ l.length :=
  (sublist_dedupF l).length_le

theorem dedupF_all_eq {α : Type} [DecidableEq α] {c : α} {l : List α}
    (h : ∀ x ∈ l, x = c) : dedupF (c :: l) = [c] := by
  rw [dedupF_cons]
  have hf : l.filter (fun x => ¬ x = c) = [] := by
    apply List.filter_eq_nil_iff.mpr
    intro a ha
    simp [h a ha]
  rw [hf, dedupF_nil]

theorem dupCountAux_eq_zero {l : List Row} (h : l.Nodup) :
    ∀ {seen : List Row}, (∀ a ∈ l, a ∉ seen) → dupCountAux seen l = 0 := by
  induction l with
  | nil => intro seen _; rfl
  | cons r rs ih =>
      intro seen hdisj
      rcases List.nodup_cons.mp h with ⟨hr, hrs⟩
      rw [dupCountAux]
      have : r ∉ seen := hdisj r (List.mem_cons_self r rs)
      rw [if_neg this, ih hrs]
      intro a ha
      simp only [List.mem_cons]
      rintro (rfl | hseen)
      · exact hr ha
      · exact hdisj a (List.mem_cons_of_mem r ha) hseen

theorem dupCount_eq_zero {l : List Row} (h : l.Nodup) : dupCount l = 0 :=
  dupCountAux_eq_zero h (by intro a _ ha; exact absurd ha (List.not_mem_nil a))

/-! ### The cell comparison is a total preorder -/

theorem strLeB_refl : ∀ l : List Char, strLeB l l = true
  | [] => rfl
  | a :: as => by
      rw [strLeB]
      rw [if_neg (Nat.lt_irrefl a.toNat), if_neg (Nat.lt_irrefl a.toNat)]
      exact strLeB_refl as

theorem strLeB_total : ∀ as bs : List Char, strLeB as bs = true ∨ strLeB bs as = true
  | [], _ => Or.inl rfl
  | _ :: _, [] => Or.inr rfl
  | a :: as, b :: bs => by
      rw [strLeB, strLeB]
      rcases Nat.lt_trichotomy a.toNat b.toNat with h | h | h
      · left
        rw [if_pos h]
      · rw [h]
        simp only [Nat.lt_irrefl, if_false]
        exact strLeB_total as bs
      · right
        rw [if_pos h]

theorem strLeB_trans : ∀ as bs cs : List Char,
    strLeB as bs = true → strLeB bs cs = true → strLeB as cs = true
  | [], _, _, _, _ => rfl
  | a :: as, [], _, h1, _ => by rw [strLeB] at h1; exact absurd h1 (by simp)
  | _ :: _, _ :: _, [], _, h2 => by rw [strLeB] at h2; exact absurd h2 (by simp)
  | a :: as, b :: bs, c :: cs, h1, h2 => by
      rw [strLeB] at h1 h2 ⊢
      by_cases hab : a.toNat < b.toNat
      · by_cases hbc : b.toNat < c.toNat
        · rw [if_pos (Nat.lt_trans hab hbc)]
        · rw [if_neg hbc] at h2
          by_cases hcb : c.toNat < b.toNat
          · rw [if_pos hcb] at h2; exact absurd h2 (by simp)
          · have : b.toNat = c.toNat := Nat.le_antisymm (Nat.le_of_not_lt hcb) (Nat.le_of_not_lt hbc)
            rw [if_pos (this ▸ hab)]
      · rw [if_neg hab] at h1
        by_cases hba : b.toNat < a.toNat
        · rw [if_pos hba] at h1; exact absurd h1 (by simp)
        · rw [if_neg hba] at h1
          have hab' : a.toNat = b.toNat := Nat.le_antisymm (Nat.le_of_not_lt hba) (Nat.le_of_not_lt hab)
          by_cases hbc : b.toNat < c.toNat
          · rw [if_pos (hab' ▸ hbc)]
          · rw [if_neg hbc] at h2
            by_cases hcb : c.toNat < b.toNat
            · rw [if_pos hcb] at h2; exact absurd h2 (by simp)
            · rw [if_neg hcb] at h2
              rw [if_neg (hab' ▸ hbc), if_neg (hab' ▸ hcb)]
              exact strLeB_trans as bs cs h1 h2

theorem cellLe_refl : ∀ a : Cell, cellLe a a = true := by
  intro a
  cases a with
  | num q => simp [cellLe]
  | str s => exact strLeB_refl s.data
  | missing => rfl

instance : IsTotal Cell CellLe := by
  constructor
  intro a b
  cases a <;> cases b <;> simp only [CellLe, cellLe] <;> try simp
  · exact le_total _ _
  · exact strLeB_total _ _

instance : IsTrans Cell CellLe := by
  constructor
  intro a b c h1 h2
  cases a <;> cases b <;> cases c <;>
    simp only [CellLe, cellLe] at h1 h2 ⊢ <;> try simp_all
  · exact le_trans h1 h2
  · exact strLeB_trans _ _ _ h1 h2

/-! ### Lemmas about cells, fills and the imputation loop -/

theorem length_fillAt (v : Cell) : ∀ (k : Nat) (r : Row), (fillAt v k r).length = r.length
  | _, [] => by simp [fillAt]
  | 0, _ :: _ => by simp [fillAt]
  | k + 1, _ :: r => by simp [fillAt, length_fillAt v k r]

theorem cellAt_fillAt_ne (v : Cell) :
    ∀ (j k : Nat) (r : Row), j ≠ k → cellAt j (fillAt v k r) = cellAt j r
  | _, _, [], _ => by simp [fillAt]
  | 0, 0, _ :: _, h => absurd rfl h
  | 0, k + 1, _ :: _, _ => by simp [fillAt, cellAt]
  | j + 1, 0, _ :: _, _ => by simp [fillAt, cellAt]
  | j + 1, k + 1, c :: r, h => by
      simp only [fillAt, cellAt]
      exact cellAt_fillAt_ne v j k r (fun hc => h (by rw [hc]))

theorem cellAt_fillAt_self (v : Cell) :
    ∀ (k : Nat) (r : Row), k < r.length →
      cellAt k (fillAt v k r) = (if cellAt k r = Cell.missing then v else cellAt k r)
  | 0, _ :: _, _ => by simp [fillAt, cellAt]
  | k + 1, _ :: r, h => by
      simp only [fillAt, cellAt]
      exact cellAt_fillAt_self v k r (Nat.lt_of_succ_lt_succ h)

theorem cellAt_mem : ∀ (j : Nat) (r : Row), j < r.length → cellAt j r ∈ r
  | 0, c :: _, _ => List.mem_cons_self c _
  | j + 1, c :: r, h =>
      List.mem_cons_of_mem c (cellAt_mem j r (Nat.lt_of_succ_lt_succ h))

theorem colVals_map_fillAt_ne {v : Cell} {j k : Nat} (rows : List Row) (h : j ≠ k) :
    colVals (rows.map (fillAt v k)) j = colVals rows j := by
  simp only [colVals, List.map_map]
  apply List.map_congr_left
  intro r _
  exact cellAt_fillAt_ne v j k r h

theorem colVals_map_fillAt_self {v : Cell} {k : Nat} {rows : List Row} {n : Nat}
    (hlen : ∀ r ∈ rows, r.length = n) (hk : k < n) :
    colVals (rows.map (fillAt v k)) k =
      (colVals rows k).map (fun c => if c = Cell.missing then v else c) := by
  simp only [colVals, List.map_map]
  apply List.map_congr_left
  intro r hr
  exact cellAt_fillAt_self v k r (by rw [hlen r hr]; exact hk)

/-- The action of `fillColumn` on its own column's values. -/
def fillEffect (dtype : Dtype) (cells : List Cell) : List Cell :=
  if 0 < missingCount cells then
    match fillValue dtype cells with
    | some v => cells.map (fun c => if c = Cell.missing then v else c)
    | none => cells
  else cells

theorem fillColumn_colVals_ne {dtypes : List Dtype} {rows : List Row} {j k : Nat}
    (h : j ≠ k) : colVals (fillColumn dtypes rows k) j = colVals rows j := by
  unfold fillColumn
  split
  · split
    · exact colVals_map_fillAt_ne rows h
    · rfl
  · rfl

theorem fillColumn_colVals_self {dtypes : List Dtype} {rows : List Row} {k n : Nat}
    (hlen : ∀ r ∈ rows, r.length = n) (hk : k < n) :
    colVals (fillColumn dtypes rows k) k =
      fillEffect (dtypes.getD k Dtype.other) (colVals rows k) := by
  unfold fillColumn fillEffect
  split
  · split
    · exact colVals_map_fillAt_self hlen hk
    · rfl
  · rfl

theorem fillColumn_rowlen {dtypes : List Dtype} {rows : List Row} {k n : Nat}
    (hlen : ∀ r ∈ rows, r.length = n) :
    ∀ r ∈ fillColumn dtypes rows k, r.length = n := by
  unfold fillColumn
  split
  · split
    · intro r hr
      rcases List.mem_map.mp hr with ⟨r0, hr0, rfl⟩
      rw [length_fillAt]; exact hlen r0 hr0
    · exact hlen
  · exact hlen

theorem fillColumn_length {dtypes : List Dtype} {rows : List Row} {k : Nat} :
    (fillColumn dtypes rows k).length = rows.length := by
  unfold fillColumn
  split
  · split
    · exact List.length_map _ _
    · rfl
  · rfl

theorem fillColumn_id_of_noMissing {dtypes : List Dtype} {rows : List Row} {k : Nat}
    (h : missingCount (colVals rows k) = 0) : fillColumn dtypes rows k = rows := by
  unfold fillColumn
  rw [h]
  simp

theorem fillLoop_colVals_ge {dtypes : List Dtype} {rows : List Row} :
    ∀ {k j : Nat}, k ≤ j → colVals (fillLoop dtypes rows k) j = colVals rows j := by
  intro k
  induction k with
  | zero => intro j _; rfl
  | succ k ih =>
      intro j hkj
      have hkj' : k ≤ j := Nat.le_of_succ_le hkj
      have hne : j ≠ k := fun hc => Nat.not_succ_le_self k (hc ▸ hkj)
      rw [fillLoop, fillColumn_colVals_ne hne, ih hkj']

theorem fillLoop_rowlen {dtypes : List Dtype} {rows : List Row} {n : Nat}
    (hlen : ∀ r ∈ rows, r.length = n) :
    ∀ (k : Nat), ∀ r ∈ fillLoop dtypes rows k, r.length = n := by
  intro k
  induction k with
  | zero => exact hlen
  | succ k ih => rw [fillLoop]; exact fillColumn_rowlen ih

theorem fillLoop_length {dtypes : List Dtype} {rows : List Row} :
    ∀ (k : Nat), (fillLoop dtypes rows k).length = rows.length := by
  intro k
  induction k with
  | zero => rfl
  | succ k ih => rw [fillLoop, fillColumn_length, ih]

theorem fillLoop_colVals_lt {dtypes : List Dtype} {rows : List Row} {n : Nat}
    (hlen : ∀ r ∈ rows, r.length = n) :
    ∀ {k j : Nat}, j < k → j < n →
      colVals (fillLoop dtypes rows k) j =
        fillEffect (dtypes.getD j Dtype.other) (colVals rows j) := by
  intro k
  induction k with
  | zero => intro j h _; exact absurd h (Nat.not_lt_zero j)
  | succ k ih =>
      intro j hjk hjn
      rw [fillLoop]
      rcases Nat.lt_or_ge j k with h | h
      · rw [fillColumn_colVals_ne (Nat.ne_of_lt h), ih h hjn]
      · have hj : j = k := Nat.le_antisymm (Nat.le_of_lt_succ hjk) h
        subst hj
        rw [fillColumn_colVals_self (fillLoop_rowlen hlen j) hjn,
            fillLoop_colVals_ge (Nat.le_refl j)]

theorem fillLoop_id {dtypes : List Dtype} {rows : List Row} :
    ∀ (k : Nat), (∀ j < k, missingCount (colVals rows j) = 0) →
      fillLoop dtypes rows k = rows := by
  intro k
  induction k with
  | zero => intro _; rfl
  | succ k ih =>
      intro h
      rw [fillLoop, ih (fun j hj => h j (Nat.lt_succ_of_lt hj))]
      exact fillColumn_id_of_noMissing (h k (Nat.lt_succ_self k))

/-! ### What holds of the rows produced by `clean_data` -/

theorem cleanRows4_noMissing {df : Df} {r : Row} (h : r ∈ cleanRows4 df) :
    rowHasMissing r = false := by
  have h3 : r ∈ cleanRows3 df := mem_dedupF.mp h
  have := List.of_mem_filter h3
  simpa using this

theorem cleanRows1_rowlen {df : Df} (hwf : Wf df) :
    ∀ r ∈ cleanRows1 df, r.length = ncols df := by
  intro r hr
  exact hwf.1 r (mem_dedupF.mp hr)

theorem cleanRows2_rowlen {df : Df} (hwf : Wf df) :
    ∀ r ∈ cleanRows2 df, r.length = ncols df :=
  fillLoop_rowlen (cleanRows1_rowlen hwf) (ncols df)

theorem cleanRows4_rowlen {df : Df} (hwf : Wf df) :
    ∀ r ∈ cleanRows4 df, r.length = ncols df := by
  intro r hr
  exact cleanRows2_rowlen hwf r (List.mem_of_mem_filter (mem_dedupF.mp hr))

theorem noMissing_cellAt {r : Row} (h : rowHasMissing r = false) {j : Nat}
    (hj : j < r.length) : cellAt j r ≠ Cell.missing := by
  intro hc
  have hmem : Cell.missing ∈ r := hc ▸ cellAt_mem j r hj
  have : rowHasMissing r = true := by
    simp only [rowHasMissing, List.any_eq_true]
    exact ⟨Cell.missing, hmem, by simp⟩
  rw [h] at this
  exact Bool.false_ne_true this

theorem clean_missingCount_zero {df : Df} (hwf : Wf df) {j : Nat}
    (hj : j < ncols df) : missingCount (colVals (cleanRows4 df) j) = 0 := by
  rw [missingCount, List.countP_eq_zero]
  intro c hc
  rcases List.mem_map.mp hc with ⟨r, hr, rfl⟩
  have hlen : r.length = ncols df := cleanRows4_rowlen hwf r hr
  have := @noMissing_cellAt _ (cleanRows4_noMissing hr) j (by rw [hlen]; exact hj)
  simpa using this

theorem nodup_cleanRows4 (df : Df) : (cleanRows4 df).Nodup :=
  nodup_dedupF _

theorem cleanRows4_length_le (df : Df) : (cleanRows4 df).length ≤ df.rows.length := by
  calc (cleanRows4 df).length
      ≤ (cleanRows3 df).length := length_dedupF_le _
    _ ≤ (cleanRows2 df).length := List.length_filter_le _ _
    _ = (cleanRows1 df).length := fillLoop_length _
    _ ≤ df.rows.length := length_dedupF_le _

theorem clean_data_wf {df : Df} (hwf : Wf df) : Wf (clean_data df).1 := by
  constructor
  · intro r hr
    exact cleanRows4_rowlen hwf r hr
  · exact hwf.2

/-! ### Idempotence machinery -/

theorem clean_data_fixed {df : Df} (hwf : Wf df) :
    (clean_data (clean_data df).1).1 = (clean_data df).1 := by
  set d1 := (clean_data df).1 with hd1
  have hrows : d1.rows = cleanRows4 df := rfl
  have hnames : d1.names = df.names := rfl
  have hdt : d1.dtypes = df.dtypes := rfl
  have hnc : ncols d1 = ncols df := rfl
  have hnodup : d1.rows.Nodup := by rw [hrows]; exact nodup_cleanRows4 df
  have h1 : cleanRows1 d1 = d1.rows := dedupF_eq_self hnodup
  have hmiss : ∀ j < ncols d1, missingCount (colVals d1.rows j) = 0 := by
    intro j hj
    rw [hrows]
    exact clean_missingCount_zero hwf (hnc ▸ hj)
  have h2 : cleanRows2 d1 = d1.rows := by
    rw [cleanRows2, h1]
    exact fillLoop_id (ncols d1) hmiss
  have h3 : cleanRows3 d1 = d1.rows := by
    rw [cleanRows3, h2]
    apply List.filter_eq_self.mpr
    intro r hr
    rw [hrows] at hr
    simp [cleanRows4_noMissing hr]
  have h4 : cleanRows4 d1 = d1.rows := by
    rw [cleanRows4, h3]
    exact dedupF_eq_self hnodup
  show (⟨d1.names, d1.dtypes, cleanRows4 d1⟩ : Df) = d1
  rw [h4]

/-- C1 helper: the second report's `cleaned` block is trivial. -/
theorem clean_data_second_report {df : Df} (hwf : Wf df) :
    let d1 := (clean_data df).1
    let rep2 := (clean_data d1).2
    rep2.cleaned.rows = rep2.original.rows ∧
    rep2.cleaned.columns = rep2.original.columns ∧
    rep2.cleaned.rows_removed = 0 ∧
    rep2.cleaned.missing_values_filled = 0 ∧
    rep2.cleaned.duplicate_rows_removed = 0 := by
  intro d1 rep2
  have hd4 : cleanRows4 d1 = d1.rows := congrArg Df.rows (clean_data_fixed hwf)
  have hnodup : d1.rows.Nodup := nodup_cleanRows4 df
  have hmiss0 : origMissingCounts d1 = (List.range (ncols d1)).map (fun _ => 0) := by
    rw [origMissingCounts]
    apply List.map_congr_left
    intro j hj
    exact clean_missingCount_zero hwf (List.mem_range.mp hj)
  refine ⟨?_, rfl, ?_, ?_, ?_⟩
  · show (cleanRows4 d1).length = d1.rows.length
    rw [hd4]
  · show d1.rows.length - (cleanRows4 d1).length = 0
    rw [hd4, Nat.sub_self]
  · show (origMissingCounts d1).sum = 0
    rw [hmiss0]
    simp
  · show dupCount d1.rows = 0
    exact dupCount_eq_zero hnodup

/-! ### Concrete frames used by witnesses and counterexamples -/

/-- The spec's end-to-end example: `age:[25, null, 25, 40]`,
`city:["NY","LA","NY","NY"]`. -/
def dfAgeCity : Df :=
  ⟨["age", "city"], [Dtype.numeric, Dtype.object],
   [[Cell.num 25, Cell.str "NY"],
    [Cell.missing, Cell.str "LA"],
    [Cell.num 25, Cell.str "NY"],
    [Cell.num 40, Cell.str "NY"]]⟩

/-! ### Claim C1 — cleaning is idempotent -/

/-- C1: cleaning is idempotent.  For every well-formed dataframe, a second
`clean_data` call on the result of a first call returns the same dataframe
(no rows or values change), and the second call's report has
`cleaned.rows = original.rows`, `cleaned.columns = original.columns`,
zero rows removed, zero missing values filled, and zero duplicate rows
removed. -/
theorem claim_C1 (df : Df) (hwf : Wf df) :
    (clean_data (clean_data df).1).1 = (clean_data df).1 ∧
    (clean_data (clean_data df).1).2.cleaned.rows =
      (clean_data (clean_data df).1).2.original.rows ∧
    (clean_data (clean_data df).1).2.cleaned.columns =
      (clean_data (clean_data df).1).2.original.columns ∧
    (clean_data (clean_data df).1).2.cleaned.rows_removed = 0 ∧
    (clean_data (clean_data df).1).2.cleaned.missing_values_filled = 0 ∧
    (clean_data (clean_data df).1).2.cleaned.duplicate_rows_removed = 0 := by
  have h := clean_data_second_report hwf
  exact ⟨clean_data_fixed hwf, h.1, h.2.1, h.2.2.1, h.2.2.2.1, h.2.2.2.2⟩

/-- Witness for C1 at the spec's example frame. -/
theorem claim_C1_witness :
    Wf dfAgeCity ∧
    (clean_data (clean_data dfAgeCity).1).1 = (clean_data dfAgeCity).1 :=
  ⟨by decide, (claim_C1 dfAgeCity (by decide)).1⟩

/-! ### Claim C2 — shape invariants of cleaning -/

/-- C2: for every well-formed dataframe, `clean_data` returns at most as
many rows as the input (and reports `cleaned.rows ≤ original.rows`), the
result has zero missing values in every column, and the column count and
column names are unchanged. -/
theorem claim_C2 (df : Df) (hwf : Wf df) :
    (clean_data df).2.cleaned.rows ≤ (clean_data df).2.original.rows ∧
    (clean_data df).1.rows.length ≤ df.rows.length ∧
    (∀ j < ncols df, missingCount (colVals (clean_data df).1.rows j) = 0) ∧
    (clean_data df).1.names = df.names ∧
    (clean_data df).2.cleaned.columns = (clean_data df).2.original.columns := by
  refine ⟨?_, ?_, ?_, rfl, rfl⟩
  · exact cleanRows4_length_le df
  · exact cleanRows4_length_le df
  · intro j hj
    exact clean_missingCount_zero hwf hj

/-- Witness for C2 at the spec's example frame. -/
theorem claim_C2_witness :
    Wf dfAgeCity ∧
    (clean_data dfAgeCity).2.cleaned.rows ≤ (clean_data dfAgeCity).2.original.rows :=
  ⟨by decide, (claim_C2 dfAgeCity (by decide)).1⟩

/-! ### Claim C4 — the end-to-end cleaning example -/

/-- The rational 65/2 = 32.5 in normal form (so that the kernel can
compare it without rational arithmetic). -/
def half65 : ℚ := ⟨65, 2, by decide, by decide⟩

theorem median_25_40 : median [(25 : ℚ), 40] = some half65 := by
  have hs : List.insertionSort (· ≤ ·) [(25 : ℚ), 40] = [25, 40] := by decide
  rw [median]
  simp only [hs]
  norm_num
  rw [half65, Rat.mk'_eq_divInt, Rat.divInt_eq_div]
  norm_num

theorem cleanRows4_dfAgeCity :
    cleanRows4 dfAgeCity =
      [[Cell.num 25, Cell.str "NY"],
       [Cell.num half65, Cell.str "LA"],
       [Cell.num 40, Cell.str "NY"]] := by
  have h1 : cleanRows1 dfAgeCity =
      [[Cell.num 25, Cell.str "NY"], [Cell.missing, Cell.str "LA"],
       [Cell.num 40, Cell.str "NY"]] := by decide
  have hv : fillValue Dtype.numeric
      (colVals [[Cell.num 25, Cell.str "NY"], [Cell.missing, Cell.str "LA"],
                [Cell.num 40, Cell.str "NY"]] 0) = some (Cell.num half65) := by
    simp only [fillValue]
    rw [show numVals (colVals [[Cell.num 25, Cell.str "NY"],
          [Cell.missing, Cell.str "LA"], [Cell.num 40, Cell.str "NY"]] 0) =
        [(25 : ℚ), 40] from by decide]
    rw [median_25_40]
    rfl
  have hinner : fillColumn dfAgeCity.dtypes
      [[Cell.num 25, Cell.str "NY"], [Cell.missing, Cell.str "LA"],
       [Cell.num 40, Cell.str "NY"]] 0 =
      [[Cell.num 25, Cell.str "NY"], [Cell.num half65, Cell.str "LA"],
       [Cell.num 40, Cell.str "NY"]] := by
    rw [fillColumn, if_pos (by decide :
      0 < missingCount (colVals [[Cell.num 25, Cell.str "NY"],
        [Cell.missing, Cell.str "LA"], [Cell.num 40, Cell.str "NY"]] 0))]
    rw [show dfAgeCity.dtypes.getD 0 Dtype.other = Dtype.numeric from rfl, hv]
    decide
  have h2 : cleanRows2 dfAgeCity =
      [[Cell.num 25, Cell.str "NY"], [Cell.num half65, Cell.str "LA"],
       [Cell.num 40, Cell.str "NY"]] := by
    rw [cleanRows2, h1]
    show fillLoop dfAgeCity.dtypes _ 2 = _
    rw [show (2 : Nat) = 1 + 1 from rfl, fillLoop, fillLoop, fillLoop, hinner]
    exact fillColumn_id_of_noMissing (by decide)
  rw [cleanRows4, cleanRows3, h2]
  decide

/-- C4: on `age:[25, null, 25, 40]`, `city:["NY","LA","NY","NY"]`,
`clean_data` drops the duplicate third row (it repeats row 0), fills the
missing age with the median 65/2 = 32.5 of the remaining ages {25, 40},
and reports `cleaned.rows = 3`, `rows_removed = 1`,
`missing_values_filled = 1`. -/
theorem claim_C4 :
    (clean_data dfAgeCity).1.rows =
      [[Cell.num 25, Cell.str "NY"],
       [Cell.num half65, Cell.str "LA"],
       [Cell.num 40, Cell.str "NY"]] ∧
    (clean_data dfAgeCity).2.cleaned.rows = 3 ∧
    (clean_data dfAgeCity).2.cleaned.rows_removed = 1 ∧
    (clean_data dfAgeCity).2.cleaned.missing_values_filled = 1 := by
  refine ⟨?_, ?_, ?_, ?_⟩
  · show cleanRows4 dfAgeCity = _
    exact cleanRows4_dfAgeCity
  · show (cleanRows4 dfAgeCity).length = 3
    rw [cleanRows4_dfAgeCity]
    decide
  · show dfAgeCity.rows.length - (cleanRows4 dfAgeCity).length = 1
    rw [cleanRows4_dfAgeCity]
    decide
  · decide

/-! ### Claim C6 — the `missing_values_filled` accounting -/

theorem sum_map_add_nat {α : Type} (l : List α) (f g : α → Nat) :
    (l.map (fun x => f x + g x)).sum = (l.map f).sum + (l.map g).sum := by
  induction l with
  | nil => rfl
  | cons a l ih => simp [ih]; omega

theorem range_sum_indicator_eq_missingCount :
    ∀ (r : Row) (n : Nat), r.length = n →
      ((List.range n).map
        (fun j => if cellAt j r = Cell.missing then 1 else 0)).sum = missingCount r := by
  intro r
  induction r with
  | nil =>
      intro n hn
      subst hn
      rfl
  | cons c r ih =>
      intro n hn
      subst hn
      rw [List.length_cons, List.range_succ_eq_map]
      simp only [List.map_cons, List.map_map, List.sum_cons]
      have hmap : ((List.range r.length).map
            ((fun j => if cellAt j (c :: r) = Cell.missing then 1 else 0) ∘ Nat.succ)) =
          ((List.range r.length).map (fun j => if cellAt j r = Cell.missing then 1 else 0)) := by
        apply List.map_congr_left
        intro j _
        rfl
      rw [hmap, ih r.length rfl]
      show (if c = Cell.missing then 1 else 0) + missingCount r = missingCount (c :: r)
      rw [missingCount, missingCount, List.countP_cons]
      simp only [decide_eq_true_eq]
      omega

theorem colSum_eq_rowSum {rows : List Row} {n : Nat}
    (hlen : ∀ r ∈ rows, r.length = n) :
    ((List.range n).map (fun j => missingCount (colVals rows j))).sum =
      (rows.map missingCount).sum := by
  induction rows with
  | nil => simp [colVals, missingCount]
  | cons r rows ih =>
      have hr : r.length = n := hlen r (List.mem_cons_self r rows)
      have hrest : ∀ x ∈ rows, x.length = n :=
        fun x hx => hlen x (List.mem_cons_of_mem r hx)
      have hcol : ∀ j, missingCount (colVals (r :: rows) j) =
          missingCount (colVals rows j) + (if cellAt j r = Cell.missing then 1 else 0) := by
        intro j
        rw [missingCount, colVals, List.map_cons, List.countP_cons]
        simp only [decide_eq_true_eq]
        rfl
      calc ((List.range n).map (fun j => missingCount (colVals (r :: rows) j))).sum
          = ((List.range n).map (fun j => missingCount (colVals rows j) +
              (if cellAt j r = Cell.missing then 1 else 0))).sum := by
            apply congrArg
            exact List.map_congr_left (fun j _ => hcol j)
        _ = ((List.range n).map (fun j => missingCount (colVals rows j))).sum +
            ((List.range n).map (fun j => if cellAt j r = Cell.missing then 1 else 0)).sum :=
            sum_map_add_nat _ _ _
        _ = (rows.map missingCount).sum + missingCount r := by
            rw [ih hrest, range_sum_indicator_eq_missingCount r n hr]
        _ = ((r :: rows).map missingCount).sum := by
            rw [List.map_cons, List.sum_cons]
            omega

/-- C6: the report's `missing_values_filled` equals the sum over all
columns of the per-column missing counts taken on the original dataframe
before any cleaning step (equivalently, the total number of missing cells
of the input); it is an upper bound on the missing counts that remain
after duplicate removal, i.e. it does not subtract missing cells that sat
in rows already dropped in the deduplication step. -/
theorem claim_C6 (df : Df) (hwf : Wf df) :
    (clean_data df).2.cleaned.missing_values_filled =
      ((List.range (ncols df)).map (fun j => missingCount (colVals df.rows j))).sum ∧
    (clean_data df).2.cleaned.missing_values_filled =
      (df.rows.map missingCount).sum ∧
    ((List.range (ncols df)).map (fun j => missingCount (colVals (cleanRows1 df) j))).sum ≤
      (clean_data df).2.cleaned.missing_values_filled := by
  refine ⟨rfl, ?_, ?_⟩
  · show (origMissingCounts df).sum = (df.rows.map missingCount).sum
    exact colSum_eq_rowSum hwf.1
  · show _ ≤ (origMissingCounts df).sum
    apply List.sum_le_sum
    intro j _
    have hsub : List.Sublist (colVals (cleanRows1 df) j) (colVals df.rows j) :=
      (sublist_dedupF df.rows).map (cellAt j)
    exact hsub.countP_le _

/-- Witness for C6 at the spec's example frame. -/
theorem claim_C6_witness :
    Wf dfAgeCity ∧
    (clean_data dfAgeCity).2.cleaned.missing_values_filled =
      (dfAgeCity.rows.map missingCount).sum :=
  ⟨by decide, (claim_C6 dfAgeCity (by decide)).2.1⟩

/-! ### Claim C10 — the `duplicate_rows_removed` accounting -/

/-- A frame on which imputation creates a fresh duplicate: one numeric
column with values `[1, NaN]`; the fill turns row 1 into a copy of row 0
and the second deduplication pass removes it, unreported. -/
def dfUnder : Df := ⟨["x"], [Dtype.numeric], [[Cell.num 1], [Cell.missing]]⟩

/-- C10: the report's `duplicate_rows_removed` always equals the
duplicate count of the original dataframe, measured before any cleaning;
rows removed by the second deduplication pass are not reflected, so the
field can understate the duplicates actually removed — on `dfUnder` the
report says zero duplicates removed although the second pass removed one
(the `dropna` step removed none: both post-imputation rows were complete
and equal). -/
theorem claim_C10 (df : Df) :
    (clean_data df).2.cleaned.duplicate_rows_removed = dupCount df.rows ∧
    (clean_data df).2.original.duplicate_rows = dupCount df.rows ∧
    ((clean_data dfUnder).2.cleaned.duplicate_rows_removed = 0 ∧
     cleanRows3 dfUnder = [[Cell.num 1], [Cell.num 1]] ∧
     cleanRows4 dfUnder = [[Cell.num 1]] ∧
     (clean_data dfUnder).2.cleaned.rows_removed = 1) := by
  refine ⟨rfl, rfl, by decide, by decide, by decide, by decide⟩

/-! ### Claim C3 — the imputation values -/

theorem median_isSome {l : List ℚ} (h : l ≠ []) : ∃ m, median l = some m := by
  simp only [median]
  have hlen : (l.insertionSort (· ≤ ·)).length = l.length :=
    List.length_insertionSort _ _
  have h0 : ¬ (l.insertionSort (· ≤ ·)).length = 0 := by
    rw [hlen]
    intro hc
    exact h (List.eq_nil_of_length_eq_zero hc)
  rw [if_neg h0]
  split
  · exact ⟨_, rfl⟩
  · exact ⟨_, rfl⟩

theorem le_natMax {l : List Nat} {x : Nat} (hx : x ∈ l) : x ≤ natMax l := by
  induction l with
  | nil => cases hx
  | cons a t ih =>
      rcases List.mem_cons.mp hx with rfl | hxt
      · exact Nat.le_max_left x (natMax t)
      · exact (ih hxt).trans (Nat.le_max_right a (natMax t))

theorem natMax_mem {l : List Nat} (h : l ≠ []) : natMax l ∈ l := by
  induction l with
  | nil => exact absurd rfl h
  | cons a t ih =>
      show Nat.max a (natMax t) ∈ a :: t
      by_cases ht : t = []
      · subst ht
        have hm : Nat.max a (natMax []) = a := Nat.max_eq_left (Nat.zero_le a)
        rw [hm]
        exact List.mem_cons_self a []
      · rcases Nat.le_total (natMax t) a with hle | hle
        · have hm : Nat.max a (natMax t) = a := Nat.max_eq_left hle
          rw [hm]
          exact List.mem_cons_self a t
        · have hm : Nat.max a (natMax t) = natMax t := Nat.max_eq_right hle
          rw [hm]
          exact List.mem_cons_of_mem a (ih ht)

theorem dedupF_ne_nil {α : Type} [DecidableEq α] {l : List α} (h : l ≠ []) :
    dedupF l ≠ [] := by
  match l with
  | [] => exact absurd rfl h
  | a :: t =>
      rw [dedupF_cons]
      exact List.cons_ne_nil _ _

theorem modeList_ne_nil {cells : List Cell} (h : nonMissing cells ≠ []) :
    modeList cells ≠ [] := by
  simp only [modeList]
  intro hc
  have hd : dedupF (nonMissing cells) ≠ [] := dedupF_ne_nil h
  have hmapne : (dedupF (nonMissing cells)).map (countVal (nonMissing cells)) ≠ [] := by
    intro hmc
    exact hd (List.map_eq_nil_iff.mp hmc)
  have hmx := natMax_mem hmapne
  rcases List.mem_map.mp hmx with ⟨w, hw, hweq⟩
  have hwf : w ∈ (dedupF (nonMissing cells)).filter
      (fun v => countVal (nonMissing cells) v =
        natMax ((dedupF (nonMissing cells)).map (countVal (nonMissing cells)))) := by
    rw [List.mem_filter]
    exact ⟨hw, by simp [hweq]⟩
  have : w ∈ ((dedupF (nonMissing cells)).filter
      (fun v => countVal (nonMissing cells) v =
        natMax ((dedupF (nonMissing cells)).map (countVal (nonMissing cells))))).insertionSort
        CellLe := by
    rw [List.mem_insertionSort]
    exact hwf
  rw [hc] at this
  exact List.not_mem_nil w this

theorem modeList_head_spec {cells : List Cell} {v : Cell} {t : List Cell}
    (h : modeList cells = v :: t) :
    v ∈ nonMissing cells ∧
    (∀ w ∈ nonMissing cells,
      countVal (nonMissing cells) w ≤ countVal (nonMissing cells) v) ∧
    (∀ w ∈ nonMissing cells,
      countVal (nonMissing cells) w = countVal (nonMissing cells) v → CellLe v w) := by
  simp only [modeList] at h
  set nm := nonMissing cells with hnm
  set mx := natMax ((dedupF nm).map (countVal nm)) with hmx
  set f := (dedupF nm).filter (fun x => countVal nm x = mx) with hf
  have hvf : v ∈ f := by
    have : v ∈ f.insertionSort CellLe := by
      rw [h]
      exact List.mem_cons_self v t
    rwa [List.mem_insertionSort] at this
  rcases List.mem_filter.mp hvf with ⟨hvd, hvmx⟩
  have hvmx' : countVal nm v = mx := by simpa using hvmx
  refine ⟨mem_dedupF.mp hvd, ?_, ?_⟩
  · intro w hw
    have hwd : w ∈ dedupF nm := mem_dedupF.mpr hw
    have : countVal nm w ∈ (dedupF nm).map (countVal nm) :=
      List.mem_map_of_mem (countVal nm) hwd
    rw [hvmx']
    exact le_natMax this
  · intro w hw hweq
    have hwd : w ∈ dedupF nm := mem_dedupF.mpr hw
    have hwf : w ∈ f := by
      rw [List.mem_filter]
      refine ⟨hwd, by simp [hweq, hvmx']⟩
    have hwin : w ∈ f.insertionSort CellLe := by
      rw [List.mem_insertionSort]
      exact hwf
    rw [h] at hwin
    rcases List.mem_cons.mp hwin with rfl | hwt
    · exact cellLe_refl w
    · have hsorted : List.Sorted CellLe (v :: t) := by
        rw [← h]
        exact List.sorted_insertionSort CellLe f
      exact List.rel_of_sorted_cons hsorted w hwt

/-- C3 (amended): for a well-formed dataframe and a column `j` with at
least one missing entry after duplicate removal, the imputation step
rewrites column `j` as follows, while the values it consults are the
post-deduplication, pre-fill ones: a numeric column (with at least one
numeric entry) has its missing cells replaced by the pandas median of the
non-missing values; an object column (with at least one non-missing
entry) has its missing cells replaced by a most frequent non-missing
value, and among equally frequent candidates the one that is least in
ascending sort order — not the first-encountered one — is chosen. -/
theorem claim_C3 (df : Df) (j : Nat) (hwf : Wf df) (hj : j < ncols df)
    (hmiss : 0 < missingCount (colVals (cleanRows1 df) j)) :
    (df.dtypes.getD j Dtype.other = Dtype.numeric →
      numVals (colVals (cleanRows1 df) j) ≠ [] →
      ∃ m, median (numVals (colVals (cleanRows1 df) j)) = some m ∧
        colVals (cleanRows2 df) j =
          (colVals (cleanRows1 df) j).map
            (fun c => if c = Cell.missing then Cell.num m else c)) ∧
    (df.dtypes.getD j Dtype.other = Dtype.object →
      nonMissing (colVals (cleanRows1 df) j) ≠ [] →
      ∃ v, colVals (cleanRows2 df) j =
          (colVals (cleanRows1 df) j).map
            (fun c => if c = Cell.missing then v else c) ∧
        v ∈ nonMissing (colVals (cleanRows1 df) j) ∧
        (∀ w ∈ nonMissing (colVals (cleanRows1 df) j),
          countVal (nonMissing (colVals (cleanRows1 df) j)) w ≤
            countVal (nonMissing (colVals (cleanRows1 df) j)) v) ∧
        (∀ w ∈ nonMissing (colVals (cleanRows1 df) j),
          countVal (nonMissing (colVals (cleanRows1 df) j)) w =
            countVal (nonMissing (colVals (cleanRows1 df) j)) v → CellLe v w)) := by
  have heff : colVals (cleanRows2 df) j =
      fillEffect (df.dtypes.getD j Dtype.other) (colVals (cleanRows1 df) j) :=
    fillLoop_colVals_lt (cleanRows1_rowlen hwf) hj hj
  constructor
  · intro hdt hnum
    obtain ⟨m, hm⟩ := median_isSome hnum
    refine ⟨m, hm, ?_⟩
    rw [heff, hdt]
    unfold fillEffect
    rw [if_pos hmiss]
    have hfv : fillValue Dtype.numeric (colVals (cleanRows1 df) j) =
        some (Cell.num m) := by
      simp only [fillValue, hm, Option.map_some']
    rw [hfv]
  · intro hdt hnm
    have hne := modeList_ne_nil hnm
    obtain ⟨v, t, hvt⟩ : ∃ v t, modeList (colVals (cleanRows1 df) j) = v :: t := by
      cases hmode : modeList (colVals (cleanRows1 df) j) with
      | nil => exact absurd hmode hne
      | cons v t => exact ⟨v, t, rfl⟩
    obtain ⟨hv1, hv2, hv3⟩ := modeList_head_spec hvt
    refine ⟨v, ?_, hv1, hv2, hv3⟩
    rw [heff, hdt]
    unfold fillEffect
    rw [if_pos hmiss]
    have hfv : fillValue Dtype.object (colVals (cleanRows1 df) j) = some v := by
      simp only [fillValue, hvt]
    rw [hfv]

/-- A frame with a two-way mode tie in an object column: values
`["b", NaN, "a"]`, plus a numeric key column keeping the rows distinct
after the fill. -/
def dfTie : Df :=
  ⟨["c", "k"], [Dtype.object, Dtype.numeric],
   [[Cell.str "b", Cell.num 1],
    [Cell.missing, Cell.num 2],
    [Cell.str "a", Cell.num 3]]⟩

/-- C3 counterexample: on `dfTie`, the mode of column `c` is tied between
`"a"` and `"b"`; pandas (and hence `clean_data`) fills the missing cell
with `"a"`, the least value in sorted order, not with the
first-encountered candidate `"b"` as the claim states. -/
theorem claim_C3_counterexample :
    (clean_data dfTie).1.rows =
      [[Cell.str "b", Cell.num 1],
       [Cell.str "a", Cell.num 2],
       [Cell.str "a", Cell.num 3]] ∧
    (clean_data dfTie).1.rows ≠
      [[Cell.str "b", Cell.num 1],
       [Cell.str "b", Cell.num 2],
       [Cell.str "a", Cell.num 3]] := by
  refine ⟨by decide, by decide⟩

/-- Witness for C3: the numeric branch at `dfUnder` (median fill) and the
object branch at `dfTie` (mode fill), with every hypothesis discharged by
computation. -/
theorem claim_C3_witness :
    (∃ m, median (numVals (colVals (cleanRows1 dfUnder) 0)) = some m ∧
       colVals (cleanRows2 dfUnder) 0 =
         (colVals (cleanRows1 dfUnder) 0).map
           (fun c => if c = Cell.missing then Cell.num m else c)) ∧
    (∃ v, colVals (cleanRows2 dfTie) 0 =
         (colVals (cleanRows1 dfTie) 0).map
           (fun c => if c = Cell.missing then v else c) ∧
       v ∈ nonMissing (colVals (cleanRows1 dfTie) 0) ∧
       (∀ w ∈ nonMissing (colVals (cleanRows1 dfTie) 0),
         countVal (nonMissing (colVals (cleanRows1 dfTie) 0)) w ≤
           countVal (nonMissing (colVals (cleanRows1 dfTie) 0)) v) ∧
       (∀ w ∈ nonMissing (colVals (cleanRows1 dfTie) 0),
         countVal (nonMissing (colVals (cleanRows1 dfTie) 0)) w =
           countVal (nonMissing (colVals (cleanRows1 dfTie) 0)) v → CellLe v w)) :=
  ⟨(claim_C3 dfUnder 0 (by decide) (by decide) (by decide)).1 (by decide) (by decide),
   (claim_C3 dfTie 0 (by decide) (by decide) (by decide)).2 (by decide) (by decide)⟩

/-! ### Claim C5 — all-missing categorical columns -/

theorem modeList_of_nonMissing_nil {cells : List Cell}
    (h : nonMissing cells = []) : modeList cells = [] := by
  simp only [modeList, h]
  rfl

theorem countP_pos_of_all {l : List Cell} {p : Cell → Bool} (hne : l ≠ [])
    (hall : ∀ c ∈ l, p c = true) : 0 < l.countP p := by
  match l with
  | [] => exact absurd rfl hne
  | c :: t =>
      rw [List.countP_cons]
      have : p c = true := hall c (List.mem_cons_self c t)
      rw [this]
      simp

theorem lookup_map_self {l : List String} {f : String → CatSummary} {k : String}
    (hk : k ∈ l) :
    List.lookup k (l.map (fun c => (c, f c))) = some (f k) := by
  induction l with
  | nil => cases hk
  | cons c t ih =>
      rw [List.map_cons]
      rcases List.mem_cons.mp hk with rfl | hkt
      · simp [List.lookup]
      · by_cases hkc : k = c
        · subst hkc
          simp [List.lookup]
        · rw [List.lookup]
          have : (k == c) = false := by
            simp [hkc]
          rw [this]
          exact ih hkt

theorem zip_getD_mem :
    ∀ (as : List String) (bs : List Dtype) (j : Nat), j < as.length → j < bs.length →
      (as.getD j "", bs.getD j Dtype.other) ∈ as.zip bs
  | [], _, _, hj, _ => absurd hj (by simp)
  | _ :: _, [], _, _, hj => absurd hj (by simp)
  | a :: as, b :: bs, 0, _, _ => by
      simp [List.zip_cons_cons]
  | a :: as, b :: bs, j + 1, hj1, hj2 => by
      rw [List.zip_cons_cons]
      exact List.mem_cons_of_mem _
        (zip_getD_mem as bs j (Nat.lt_of_succ_lt_succ hj1) (Nat.lt_of_succ_lt_succ hj2))

theorem getD_mem_of_lt {α : Type} :
    ∀ (l : List α) (j : Nat), j < l.length → ∀ d, l.getD j d ∈ l
  | [], j, hj, _ => absurd hj (by simp)
  | a :: t, 0, _, d => by simp
  | a :: t, j + 1, hj, d => by
      rw [List.getD_cons_succ]
      exact List.mem_cons_of_mem a (getD_mem_of_lt t j (Nat.lt_of_succ_lt_succ hj) d)

theorem indexOf_getD {l : List String} (hnd : l.Nodup) :
    ∀ {j : Nat}, j < l.length → l.indexOf (l.getD j "") = j := by
  induction l with
  | nil => intro j hj; exact absurd hj (by simp)
  | cons a t ih =>
      intro j hj
      match j with
      | 0 => simp [List.indexOf_cons_self]
      | j + 1 =>
          rcases List.nodup_cons.mp hnd with ⟨ha, hnt⟩
          have hjt : j < t.length := Nat.lt_of_succ_lt_succ hj
          have hmem : t.getD j "" ∈ t := getD_mem_of_lt t j hjt ""
          have hne : t.getD j "" ≠ a := fun hc => ha (hc ▸ hmem)
          show List.indexOf (t.getD j "") (a :: t) = j + 1
          rw [List.indexOf_cons_ne _ (fun hc => hne hc.symm), ih hnt hjt]

theorem colVals_all_eq_of_mem {rows rows' : List Row} {j : Nat} {v : Cell}
    (hsub : ∀ r ∈ rows', r ∈ rows)
    (hall : ∀ c ∈ colVals rows j, c = v) :
    ∀ c ∈ colVals rows' j, c = v := by
  intro c hc
  rcases List.mem_map.mp hc with ⟨r, hr, rfl⟩
  exact hall _ (List.mem_map_of_mem (cellAt j) (hsub r hr))

/-- C5 (amended): for a well-formed dataframe with unique column names
and an object column `j` whose values are all missing, provided the
cleaned dataframe is non-empty (imputation succeeded on the other
columns), that column of the cleaned dataframe holds the literal
`"Unknown"` in every row, and the `categorical_comparison` table reports
`unique_count = 1` for it. -/
theorem claim_C5 (df : Df) (j : Nat) (hwf : Wf df) (hnames : df.names.Nodup)
    (hj : j < ncols df) (hdt : df.dtypes.getD j Dtype.other = Dtype.object)
    (hall : ∀ c ∈ colVals df.rows j, c = Cell.missing)
    (hne : (clean_data df).1.rows ≠ []) :
    (∀ c ∈ colVals (clean_data df).1.rows j, c = Cell.str "Unknown") ∧
    (∃ s, (categorical_comparison (clean_data df).1).lookup (df.names.getD j "") =
        some s ∧ s.unique_count = 1) := by
  have hr4 : cleanRows4 df ≠ [] := hne
  have hr3 : cleanRows3 df ≠ [] := by
    intro hc
    exact hr4 (by rw [cleanRows4, hc, dedupF_nil])
  have hr2 : cleanRows2 df ≠ [] := by
    intro hc
    exact hr3 (by rw [cleanRows3, hc, List.filter_nil])
  have hr1 : cleanRows1 df ≠ [] := by
    intro hc
    apply hr2
    have := @fillLoop_length df.dtypes (cleanRows1 df) (ncols df)
    rw [cleanRows2]
    rw [hc] at this ⊢
    exact List.eq_nil_of_length_eq_zero (by simpa using this)
  have hall1 : ∀ c ∈ colVals (cleanRows1 df) j, c = Cell.missing :=
    colVals_all_eq_of_mem (fun r hr => mem_dedupF.mp hr) hall
  have hcne : colVals (cleanRows1 df) j ≠ [] := by
    intro hc
    apply hr1
    have : (colVals (cleanRows1 df) j).length = (cleanRows1 df).length :=
      List.length_map _ _
    rw [hc] at this
    exact List.eq_nil_of_length_eq_zero this.symm
  have hmiss : 0 < missingCount (colVals (cleanRows1 df) j) :=
    countP_pos_of_all hcne (by intro c hc; simp [hall1 c hc])
  have hnm : nonMissing (colVals (cleanRows1 df) j) = [] := by
    apply List.filter_eq_nil_iff.mpr
    intro c hc
    simp [hall1 c hc]
  have heff : colVals (cleanRows2 df) j =
      fillEffect (df.dtypes.getD j Dtype.other) (colVals (cleanRows1 df) j) :=
    fillLoop_colVals_lt (cleanRows1_rowlen hwf) hj hj
  have hfv : fillValue Dtype.object (colVals (cleanRows1 df) j) =
      some (Cell.str "Unknown") := by
    simp only [fillValue, modeList_of_nonMissing_nil hnm]
  have hall2 : ∀ c ∈ colVals (cleanRows2 df) j, c = Cell.str "Unknown" := by
    rw [heff, hdt]
    unfold fillEffect
    rw [if_pos hmiss, hfv]
    intro c hc
    rcases List.mem_map.mp hc with ⟨c0, hc0, rfl⟩
    rw [hall1 c0 hc0]
    simp
  have hall4 : ∀ c ∈ colVals (cleanRows4 df) j, c = Cell.str "Unknown" := by
    apply @colVals_all_eq_of_mem (cleanRows2 df)
    · intro r hr
      exact List.mem_of_mem_filter (mem_dedupF.mp hr)
    · exact hall2
  refine ⟨hall4, ?_⟩
  have hkey : df.names.getD j "" ∈ categoricalCols (clean_data df).1 := by
    show df.names.getD j "" ∈
      ((df.names.zip df.dtypes).filter (fun p => p.2 = Dtype.object)).map (fun p => p.1)
    apply List.mem_map.mpr
    refine ⟨(df.names.getD j "", df.dtypes.getD j Dtype.other), ?_, rfl⟩
    rw [List.mem_filter]
    constructor
    · exact zip_getD_mem df.names df.dtypes j hj (by rw [hwf.2]; exact hj)
    · show decide (df.dtypes.getD j Dtype.other = Dtype.object) = true
      rw [hdt]
      rfl
  refine ⟨_, lookup_map_self hkey, ?_⟩
  show nunique (colValsByName (clean_data df).1 (df.names.getD j "")) = 1
  have hidx : colIdx (clean_data df).1 (df.names.getD j "") = j := by
    show (clean_data df).1.names.indexOf (df.names.getD j "") = j
    exact indexOf_getD hnames hj
  rw [colValsByName, hidx]
  show nunique (colVals (cleanRows4 df) j) = 1
  have hcne4 : colVals (cleanRows4 df) j ≠ [] := by
    intro hc
    apply hr4
    have : (colVals (cleanRows4 df) j).length = (cleanRows4 df).length :=
      List.length_map _ _
    rw [hc] at this
    exact List.eq_nil_of_length_eq_zero this.symm
  rcases hcells : colVals (cleanRows4 df) j with _ | ⟨c, tl⟩
  · exact absurd hcells hcne4
  · have hc0 : c = Cell.str "Unknown" :=
      hall4 c (hcells ▸ List.mem_cons_self c tl)
    have htl : ∀ x ∈ tl, x = Cell.str "Unknown" :=
      fun x hx => hall4 x (hcells ▸ List.mem_cons_of_mem c hx)
    subst hc0
    rw [nunique]
    have hnm4 : nonMissing (Cell.str "Unknown" :: tl) = Cell.str "Unknown" :: tl := by
      apply List.filter_eq_self.mpr
      intro a ha
      rcases List.mem_cons.mp ha with rfl | hat
      · simp
      · rw [htl a hat]
        simp
    rw [hnm4, dedupF_all_eq htl]
    rfl

/-- Counterexample frame for C5 as stated: the object column `c` is all
missing, but so is the numeric column `x`, whose failed imputation makes
`dropna` delete every row. -/
def dfMiss : Df :=
  ⟨["c", "x"], [Dtype.object, Dtype.numeric], [[Cell.missing, Cell.missing]]⟩

/-- C5 counterexample: on `dfMiss` the cleaned dataframe is empty, and
`categorical_comparison` reports `unique_count = 0` — not `1` — for the
all-missing categorical column. -/
theorem claim_C5_counterexample :
    (clean_data dfMiss).1.rows = [] ∧
    (categorical_comparison (clean_data dfMiss).1).lookup "c" =
      some { unique_count := 0, most_common := none } := by
  refine ⟨by decide, by decide⟩

/-- A frame where the amended C5 applies: object column `c` all missing,
numeric key column keeping rows alive and distinct. -/
def dfUnknownCat : Df :=
  ⟨["c", "k"], [Dtype.object, Dtype.numeric],
   [[Cell.missing, Cell.num 1], [Cell.missing, Cell.num 2]]⟩

/-- Witness for C5 at `dfUnknownCat`, every hypothesis discharged by
computation. -/
theorem claim_C5_witness :
    (∀ c ∈ colVals (clean_data dfUnknownCat).1.rows 0, c = Cell.str "Unknown") ∧
    (∃ s, (categorical_comparison (clean_data dfUnknownCat).1).lookup
        (dfUnknownCat.names.getD 0 "") = some s ∧ s.unique_count = 1) :=
  claim_C5 dfUnknownCat 0 (by decide) (by decide) (by decide) (by decide)
    (by decide) (by decide)

/-! ### Claim C7 — format detection -/

theorem asciiLower_eq_slash_iff (c : Char) : asciiLower c = '/' ↔ c = '/' := by
  unfold asciiLower
  split <;> simp_all

theorem asciiLower_eq_dot_iff (c : Char) : asciiLower c = '.' ↔ c = '.' := by
  unfold asciiLower
  split <;> simp_all

theorem asciiLower_output (c : Char) :
    asciiLower c = c ∨
      asciiLower c ∈ ['a', 'b', 'c', 'd', 'e', 'f', 'g', 'h', 'i', 'j', 'k', 'l',
        'm', 'n', 'o', 'p', 'q', 'r', 's', 't', 'u', 'v', 'w', 'x', 'y', 'z'] := by
  unfold asciiLower
  split
  all_goals first
    | (left; rfl)
    | (right; decide)

theorem asciiLower_idem (c : Char) : asciiLower (asciiLower c) = asciiLower c := by
  rcases asciiLower_output c with h | h
  · rw [h]
    exact h
  · simp only [List.mem_cons, List.not_mem_nil, or_false] at h
    rcases h with h | h | h | h | h | h | h | h | h | h | h | h | h | h | h | h |
      h | h | h | h | h | h | h | h | h | h <;> rw [h] <;> decide

theorem asciiLower_slash : asciiLower '/' = '/' := by decide

theorem asciiLower_dot : asciiLower '.' = '.' := by decide

theorem hasNonDotBeforeSep_map_lower :
    ∀ l : List Char, hasNonDotBeforeSep (l.map asciiLower) = hasNonDotBeforeSep l
  | [] => rfl
  | c :: rest => by
      rw [List.map_cons, hasNonDotBeforeSep, hasNonDotBeforeSep]
      by_cases h1 : c = '/'
      · subst h1
        simp [asciiLower_slash]
      · rw [if_neg ((not_congr (asciiLower_eq_slash_iff c)).mpr h1), if_neg h1]
        by_cases h2 : c = '.'
        · subst h2
          simp [asciiLower_dot, hasNonDotBeforeSep_map_lower rest]
        · rw [if_neg ((not_congr (asciiLower_eq_dot_iff c)).mpr h2), if_neg h2]

theorem extRevScan_map_lower :
    ∀ (r acc : List Char),
      extRevScan (acc.map asciiLower) (r.map asciiLower) =
        (extRevScan acc r).map asciiLower
  | [], _ => rfl
  | c :: rest, acc => by
      rw [List.map_cons, extRevScan, extRevScan]
      by_cases h1 : c = '/'
      · subst h1
        simp [asciiLower_slash]
      · rw [if_neg ((not_congr (asciiLower_eq_slash_iff c)).mpr h1), if_neg h1]
        by_cases h2 : c = '.'
        · subst h2
          rw [asciiLower_dot, if_pos rfl, if_pos rfl, hasNonDotBeforeSep_map_lower rest]
          by_cases h3 : hasNonDotBeforeSep rest = true
          · rw [if_pos h3, if_pos h3]
            rfl
          · rw [if_neg h3, if_neg h3]
            rfl
        · rw [if_neg ((not_congr (asciiLower_eq_dot_iff c)).mpr h2), if_neg h2]
          have hc : asciiLower c :: acc.map asciiLower = (c :: acc).map asciiLower := rfl
          rw [hc]
          exact extRevScan_map_lower rest (c :: acc)

theorem splitextExt_map_lower (l : List Char) :
    splitextExt (l.map asciiLower) = (splitextExt l).map asciiLower := by
  rw [splitextExt, splitextExt, ← List.map_reverse]
  exact extRevScan_map_lower l.reverse []

theorem lowerChars_idem (l : List Char) : lowerChars (lowerChars l) = lowerChars l := by
  show (l.map asciiLower).map asciiLower = l.map asciiLower
  rw [List.map_map]
  exact List.map_congr_left (fun c _ => asciiLower_idem c)

theorem extKey_lowerStr (fn : String) : extKey (lowerStr fn) = extKey fn := by
  show String.mk (stripChars (lowerChars (splitextExt (lowerStr fn).toList))) =
    String.mk (stripChars (lowerChars (splitextExt fn.toList)))
  have htl : (lowerStr fn).toList = lowerChars fn.toList := rfl
  rw [htl]
  have h1 : splitextExt (lowerChars fn.toList) =
      lowerChars (splitextExt fn.toList) := splitextExt_map_lower fn.toList
  rw [h1, lowerChars_idem]

theorem ite_mem_of {c : Prop} [Decidable c] {a b : String} {L : List String}
    (ha : a ∈ L) (hb : b ∈ L) : (if c then a else b) ∈ L := by
  split
  · exact ha
  · exact hb

theorem formats_get_range (s : String) :
    formats_get s ∈
      ["csv", "json", "xlsx", "xls", "tsv", "txt", "parquet", "hdf5", "feather",
       "unknown"] := by
  rw [formats_get]
  refine ite_mem_of (List.Mem.head _) (ite_mem_of ?_ (ite_mem_of ?_ (ite_mem_of ?_
    (ite_mem_of ?_ (ite_mem_of ?_ (ite_mem_of ?_ (ite_mem_of ?_ (ite_mem_of ?_
    (ite_mem_of ?_ (ite_mem_of ?_ ?_))))))))))
  · exact List.Mem.tail _ (List.Mem.head _)
  · exact List.Mem.tail _ (List.Mem.tail _ (List.Mem.head _))
  · exact List.Mem.tail _ (List.Mem.tail _ (List.Mem.tail _ (List.Mem.head _)))
  · exact List.Mem.tail _ (List.Mem.tail _ (List.Mem.tail _ (List.Mem.tail _
      (List.Mem.head _))))
  · exact List.Mem.tail _ (List.Mem.tail _ (List.Mem.tail _ (List.Mem.tail _
      (List.Mem.tail _ (List.Mem.head _)))))
  · exact List.Mem.tail _ (List.Mem.tail _ (List.Mem.tail _ (List.Mem.tail _
      (List.Mem.tail _ (List.Mem.tail _ (List.Mem.head _))))))
  · exact List.Mem.tail _ (List.Mem.tail _ (List.Mem.tail _ (List.Mem.tail _
      (List.Mem.tail _ (List.Mem.tail _ (List.Mem.head _))))))
  · exact List.Mem.tail _ (List.Mem.tail _ (List.Mem.tail _ (List.Mem.tail _
      (List.Mem.tail _ (List.Mem.tail _ (List.Mem.tail _ (List.Mem.head _)))))))
  · exact List.Mem.tail _ (List.Mem.tail _ (List.Mem.tail _ (List.Mem.tail _
      (List.Mem.tail _ (List.Mem.tail _ (List.Mem.tail _ (List.Mem.head _)))))))
  · exact List.Mem.tail _ (List.Mem.tail _ (List.Mem.tail _ (List.Mem.tail _
      (List.Mem.tail _ (List.Mem.tail _ (List.Mem.tail _ (List.Mem.tail _
      (List.Mem.head _))))))))
  · exact List.Mem.tail _ (List.Mem.tail _ (List.Mem.tail _ (List.Mem.tail _
      (List.Mem.tail _ (List.Mem.tail _ (List.Mem.tail _ (List.Mem.tail _
      (List.Mem.tail _ (List.Mem.head _)))))))))

theorem formats_get_unknown {s : String}
    (h : s ∉ [".csv", ".json", ".xlsx", ".xls", ".tsv", ".txt", ".parquet", ".pq",
              ".hdf5", ".h5", ".feather"]) :
    formats_get s = "unknown" := by
  have n1 : ¬ s = ".csv" := fun hc => h (by rw [hc]; exact List.Mem.head _)
  have n2 : ¬ s = ".json" := fun hc => h (by
    rw [hc]; exact List.Mem.tail _ (List.Mem.head _))
  have n3 : ¬ s = ".xlsx" := fun hc => h (by
    rw [hc]; exact List.Mem.tail _ (List.Mem.tail _ (List.Mem.head _)))
  have n4 : ¬ s = ".xls" := fun hc => h (by
    rw [hc]; exact List.Mem.tail _ (List.Mem.tail _ (List.Mem.tail _ (List.Mem.head _))))
  have n5 : ¬ s = ".tsv" := fun hc => h (by
    rw [hc]; exact List.Mem.tail _ (List.Mem.tail _ (List.Mem.tail _ (List.Mem.tail _
      (List.Mem.head _)))))
  have n6 : ¬ s = ".txt" := fun hc => h (by
    rw [hc]; exact List.Mem.tail _ (List.Mem.tail _ (List.Mem.tail _ (List.Mem.tail _
      (List.Mem.tail _ (List.Mem.head _))))))
  have n7 : ¬ s = ".parquet" := fun hc => h (by
    rw [hc]; exact List.Mem.tail _ (List.Mem.tail _ (List.Mem.tail _ (List.Mem.tail _
      (List.Mem.tail _ (List.Mem.tail _ (List.Mem.head _)))))))
  have n8 : ¬ s = ".pq" := fun hc => h (by
    rw [hc]; exact List.Mem.tail _ (List.Mem.tail _ (List.Mem.tail _ (List.Mem.tail _
      (List.Mem.tail _ (List.Mem.tail _ (List.Mem.tail _ (List.Mem.head _)))))))) 
  have n9 : ¬ s = ".hdf5" := fun hc => h (by
    rw [hc]; exact List.Mem.tail _ (List.Mem.tail _ (List.Mem.tail _ (List.Mem.tail _
      (List.Mem.tail _ (List.Mem.tail _ (List.Mem.tail _ (List.Mem.tail _
      (List.Mem.head _)))))))))
  have n10 : ¬ s = ".h5" := fun hc => h (by
    rw [hc]; exact List.Mem.tail _ (List.Mem.tail _ (List.Mem.tail _ (List.Mem.tail _
      (List.Mem.tail _ (List.Mem.tail _ (List.Mem.tail _ (List.Mem.tail _
      (List.Mem.tail _ (List.Mem.head _))))))))))
  have n11 : ¬ s = ".feather" := fun hc => h (by
    rw [hc]; exact List.Mem.tail _ (List.Mem.tail _ (List.Mem.tail _ (List.Mem.tail _
      (List.Mem.tail _ (List.Mem.tail _ (List.Mem.tail _ (List.Mem.tail _
      (List.Mem.tail _ (List.Mem.tail _ (List.Mem.head _)))))))))))
  rw [formats_get, if_neg n1, if_neg n2, if_neg n3, if_neg n4, if_neg n5, if_neg n6,
      if_neg n7, if_neg n8, if_neg n9, if_neg n10, if_neg n11]

/-- C7: `detect_file_format` is a pure function of the lower-cased (and
stripped) file extension; its value is always one of the ten format tags;
lower-casing the filename does not change the result; any extension
outside the supported set (including the empty one) maps to `"unknown"`;
and the aliases `.pq` and `.h5` map to `"parquet"` and `"hdf5"`. -/
theorem claim_C7 (fn : String) :
    detect_file_format fn ∈
      ["csv", "json", "xlsx", "xls", "tsv", "txt", "parquet", "hdf5", "feather",
       "unknown"] ∧
    detect_file_format fn = formats_get (extKey fn) ∧
    detect_file_format (lowerStr fn) = detect_file_format fn ∧
    (extKey fn ∉ [".csv", ".json", ".xlsx", ".xls", ".tsv", ".txt", ".parquet",
        ".pq", ".hdf5", ".h5", ".feather"] →
      detect_file_format fn = "unknown") ∧
    (extKey fn = ".pq" → detect_file_format fn = "parquet") ∧
    (extKey fn = ".h5" → detect_file_format fn = "hdf5") := by
  refine ⟨formats_get_range _, rfl, ?_, ?_, ?_, ?_⟩
  · show formats_get (extKey (lowerStr fn)) = formats_get (extKey fn)
    rw [extKey_lowerStr]
  · intro h
    exact formats_get_unknown h
  · intro h
    show formats_get (extKey fn) = "parquet"
    rw [h, formats_get, if_neg (by decide), if_neg (by decide), if_neg (by decide),
        if_neg (by decide), if_neg (by decide), if_neg (by decide),
        if_neg (by decide), if_pos rfl]
  · intro h
    show formats_get (extKey fn) = "hdf5"
    rw [h, formats_get, if_neg (by decide), if_neg (by decide), if_neg (by decide),
        if_neg (by decide), if_neg (by decide), if_neg (by decide),
        if_neg (by decide), if_neg (by decide), if_neg (by decide), if_pos rfl]

/-- Witness for C7: the alias and unknown branches at concrete filenames
(note the upper-case extensions and the extension-free name). -/
theorem claim_C7_witness :
    detect_file_format "Data.PQ" = "parquet" ∧
    detect_file_format "dir/archive.H5" = "hdf5" ∧
    detect_file_format "notes.docx" = "unknown" ∧
    detect_file_format "noextension" = "unknown" :=
  ⟨(claim_C7 "Data.PQ").2.2.2.2.1 (by decide),
   (claim_C7 "dir/archive.H5").2.2.2.2.2 (by decide),
   (claim_C7 "notes.docx").2.2.2.1 (by decide),
   (claim_C7 "noextension").2.2.2.1 (by decide)⟩

/-! ### Claim C8 — exactly one numeric column -/

/-- C8 (amended): for a dataframe with exactly one numeric column, the
`correlation_matrix` key is absent from the table set; the `correlation`
key is present in the chart set, but its value is not the empty string —
it is the base64 encoding of the PNG of a blank figure (the guard
`len(numeric_cols) > 1` skips the heatmap, yet `generate_graph` still
saves the empty figure and encodes it; `''` is returned only from the
exception handler, which this path does not reach). -/
theorem claim_C8 (df : Df) (h : (numericCols df).length = 1) :
    "correlation_matrix" ∉ generate_all_tables_keys df ∧
    (generate_all_graphs df).lookup "correlation" = some (b64encode (pngBytes [])) ∧
    b64encode (pngBytes []) ≠ "" := by
  have hne : numericCols df ≠ [] := by
    intro hc
    rw [hc] at h
    exact absurd h (by decide)
  have hlt : ¬ 1 < (numericCols df).length := by
    rw [h]
    decide
  refine ⟨?_, ?_, by decide⟩
  · rw [generate_all_tables_keys, if_pos hne, if_pos hne, if_neg hlt]
    by_cases hcat : categoricalCols df ≠ []
    · rw [if_pos hcat]
      decide
    · rw [if_neg hcat]
      decide
  · rw [generate_all_graphs, if_pos hne]
    have e1 : (("correlation" : String) == "histogram") = false := by decide
    have e2 : (("correlation" : String) == "distribution") = false := by decide
    have e3 : (("correlation" : String) == "correlation") = true := by decide
    rw [List.cons_append, List.cons_append, List.cons_append]
    simp only [List.lookup, e1, e2, e3]
    show some (generate_graph df none "correlation") = _
    rw [generate_graph, drawCommands, if_neg (by decide), if_neg (by decide),
        if_pos rfl, if_neg hlt]

/-- The frame with exactly one numeric column used against C8. -/
def dfOneNum : Df := ⟨["x"], [Dtype.numeric], [[Cell.num 1], [Cell.num 2]]⟩

set_option maxHeartbeats 1000000 in
/-- C8 counterexample: on a one-numeric-column frame the `correlation`
chart value is the base64 PNG of a blank figure (`"iVBORw0KGgo="`), not
the empty string the claim demands (the table key is indeed absent). -/
theorem claim_C8_counterexample :
    (generate_all_graphs dfOneNum).lookup "correlation" ≠ some "" ∧
    (generate_all_graphs dfOneNum).lookup "correlation" = some "iVBORw0KGgo=" ∧
    "correlation_matrix" ∉ generate_all_tables_keys dfOneNum := by
  refine ⟨by decide, by decide, by decide⟩

/-- Witness for C8 at the one-numeric-column frame. -/
theorem claim_C8_witness :
    "correlation_matrix" ∉ generate_all_tables_keys dfOneNum ∧
    (generate_all_graphs dfOneNum).lookup "correlation" =
      some (b64encode (pngBytes [])) ∧
    b64encode (pngBytes []) ≠ "" :=
  claim_C8 dfOneNum (by decide)

/-! ### Claim C9 — the encoding fallback chain -/

/-- C9: the reader's encoding chain is first-success-wins over the fixed
candidate list `[utf-8, latin-1, windows-1252, iso-8859-1, cp1252]`: the
result is the parse of the utf-8 decode when the bytes are valid utf-8,
and the parse of the latin-1 decode otherwise.  Latin-1 decoding is total
(every byte maps to the code point of the same value), so some candidate
always succeeds, no byte input ever fails for encoding reasons, and the
lossy utf-8 fallback — which the claim describes and the source
implements after the loop — is unreachable: the "all five candidates
fail" antecedent is never satisfied. -/
theorem claim_C9 (bytes : List Nat) :
    try_read_csv_with_encodings bytes =
      csvParse (match utf8Decode bytes with
                | some s => s
                | none => latin1Decode bytes) ∧
    decodeWith Enc.latin1 bytes = some (latin1Decode bytes) ∧
    (∃ e ∈ encodings, (decodeWith e bytes).isSome) := by
  refine ⟨?_, rfl, ⟨Enc.latin1, by decide, rfl⟩⟩
  rw [try_read_csv_with_encodings, encodings, tryEncodings]
  cases hu : utf8Decode bytes with
  | some s =>
      show (match decodeWith Enc.utf8 bytes with
            | some s => csvParse s
            | none => tryEncodings bytes [Enc.latin1, Enc.win1252, Enc.iso88591, Enc.cp1252]) = _
      rw [show decodeWith Enc.utf8 bytes = utf8Decode bytes from rfl, hu]
  | none =>
      show (match decodeWith Enc.utf8 bytes with
            | some s => csvParse s
            | none => tryEncodings bytes [Enc.latin1, Enc.win1252, Enc.iso88591, Enc.cp1252]) = _
      rw [show decodeWith Enc.utf8 bytes = utf8Decode bytes from rfl, hu]
      rfl

end Flaskdp
